import Mathlib

/-!
Shallow embedding of the API-access core of the bitbucket-server-cli
repository, together with theorems checking the natural-language
specification against it.

The embedding follows the Go source:
- `internal/domain/errors` (error kinds, `ExitCode`),
- the per-service `mapStatusError` classifiers (comment / tag / diff
  services) and the `transport/httpclient` variant,
- the pagination drainers (`repository.listPaged`, `tag.Service.List`,
  `comment.Service.List`),
- `internal/config` credential resolution (`LoadFromEnv`,
  `resolveStoredCredentials`, `normalizeURL`, `hostKey`),
- the comment service mutating flow (`Get`/`Create`/`Update`/`Delete`),
- the HTTP executor retry loop (`httpclient.Client.GetJSON`),
- the diff name-only extraction (`extractNamesFromUnifiedDiff`).

Machine integers of the Go code are modelled as `Nat`/`Int` (no wraparound
is reachable in the modelled code paths), Go `nil`-able values as `Option`,
Go `error` results as `Option`/`Except`.  External collaborators (the HTTP
transport, the generated typed client, the OS environment, the keyring)
are passed in as explicit function/record parameters, mirroring the typed
request/response contract the code consumes.
-/

/-- Model of Go `strings.TrimSpace`: strip leading and trailing whitespace
characters.  (Defined by structural recursion over the character list so
that concrete instances evaluate inside the kernel.) -/
def trimSpace (s : String) : String :=
  String.mk (((s.data.dropWhile Char.isWhitespace).reverse.dropWhile Char.isWhitespace).reverse)

/-- Error kinds of `internal/domain/errors` (Go `Kind` string constants). -/
inductive ErrKind where
  | validation
  | authentication
  | authorization
  | notFound
  | conflict
  | transient
  | permanent
  | notImplemented
  | internalKind
  deriving DecidableEq, Repr

/-- `AppError` of `internal/domain/errors`: kind, message, optional wrapped
cause (the cause is carried as a plain string here; nothing inspects it). -/
structure AppError where
  kind : ErrKind
  message : String
  cause : Option String
  deriving DecidableEq, Repr

/-- A Go `error` value as seen by `ExitCode`: either a classified
`*AppError` (possibly reachable through `errors.As`) or some other
non-domain error. -/
inductive GoError where
  | app (e : AppError)
  | other (msg : String)
  deriving DecidableEq, Repr

/-- `errors.New` wrapper (`apperrors.New(kind, message, cause)`). -/
def AppError.mk' (kind : ErrKind) (message : String) (cause : Option String) : AppError :=
  ⟨kind, message, cause⟩

/-- `ExitCode` from `internal/domain/errors`: `nil` ⇒ 0, classified kinds
per the switch, any other error ⇒ 1. -/
def ExitCode : Option GoError → Nat
  | none => 0
  | some (.app e) =>
    match e.kind with
    | .validation => 2
    | .authentication => 3
    | .authorization => 3
    | .notFound => 4
    | .conflict => 5
    | .transient => 10
    | .notImplemented => 11
    | .permanent => 1
    | .internalKind => 1
  | some (.other _) => 1

/-- Model of Go `net/http.StatusText`, restricted to the codes exercised by
this development; unknown codes yield `""` exactly as the stdlib does. -/
def statusText : Nat → String
  | 400 => "Bad Request"
  | 401 => "Unauthorized"
  | 403 => "Forbidden"
  | 404 => "Not Found"
  | 409 => "Conflict"
  | 418 => "I'm a teapot"
  | 429 => "Too Many Requests"
  | 500 => "Internal Server Error"
  | 502 => "Bad Gateway"
  | 503 => "Service Unavailable"
  | _ => ""

/-- `mapStatusError` as written identically in the comment, tag and diff
services: `nil` on 2xx, otherwise a classified `AppError` with the
`"bitbucket API returned <code>: <body or reason>"` message. -/
def mapStatusError (status : Nat) (body : String) : Option AppError :=
  if 200 ≤ status ∧ status < 300 then
    none
  else
    let message := if trimSpace body = "" then statusText status else trimSpace body
    let baseMessage := "bitbucket API returned " ++ toString status ++ ": " ++ message
    if status = 400 then some (AppError.mk' .validation baseMessage none)
    else if status = 401 then some (AppError.mk' .authentication baseMessage none)
    else if status = 403 then some (AppError.mk' .authorization baseMessage none)
    else if status = 404 then some (AppError.mk' .notFound baseMessage none)
    else if status = 409 then some (AppError.mk' .conflict baseMessage none)
    else if status = 429 then some (AppError.mk' .transient baseMessage none)
    else if 500 ≤ status then some (AppError.mk' .transient baseMessage none)
    else some (AppError.mk' .permanent baseMessage none)

/-- `mapStatusError` of `transport/httpclient`: same switch, but without the
2xx short-circuit (its caller `GetJSON` only invokes it on non-2xx). -/
def httpclientMapStatusError (status : Nat) (body : String) : AppError :=
  let message := if trimSpace body = "" then statusText status else trimSpace body
  let baseMessage := "bitbucket API returned " ++ toString status ++ ": " ++ message
  if status = 401 then AppError.mk' .authentication baseMessage none
  else if status = 403 then AppError.mk' .authorization baseMessage none
  else if status = 404 then AppError.mk' .notFound baseMessage none
  else if status = 409 then AppError.mk' .conflict baseMessage none
  else if status = 400 then AppError.mk' .validation baseMessage none
  else if status = 429 then AppError.mk' .transient baseMessage none
  else if 500 ≤ status then AppError.mk' .transient baseMessage none
  else AppError.mk' .permanent baseMessage none

/-- The status → kind table exactly as the specification states it:
2xx ⇒ no error, 400 ⇒ validation, 401 ⇒ authentication, 403 ⇒
authorization, 404 ⇒ not_found, 409 ⇒ conflict, 429 ⇒ transient,
≥ 500 ⇒ transient, any other non-2xx ⇒ permanent. -/
def specStatusKind (status : Nat) : Option ErrKind :=
  if 200 ≤ status ∧ status < 300 then none
  else if status = 400 then some .validation
  else if status = 401 then some .authentication
  else if status = 403 then some .authorization
  else if status = 404 then some .notFound
  else if status = 409 then some .conflict
  else if status = 429 then some .transient
  else if 500 ≤ status then some .transient
  else some .permanent

set_option maxHeartbeats 2000000 in
/-- C1: for every HTTP status and body, the service classifier
(`mapStatusError` of the comment/tag/diff services) yields no error on 2xx
and otherwise an error of exactly the kind in the specification's table
(400 validation, 401 authentication, 403 authorization, 404 not_found,
409 conflict, 429 transient, ≥500 transient, other non-2xx permanent);
the `httpclient` classifier agrees on every non-2xx status. -/
theorem mapStatusError_matches_spec_table (status : Nat) (body : String) :
    (mapStatusError status body).map AppError.kind = specStatusKind status
    ∧ (¬ (200 ≤ status ∧ status < 300) →
        some (httpclientMapStatusError status body).kind = specStatusKind status) := by
  constructor
  · unfold mapStatusError specStatusKind
    split_ifs <;> first | (exfalso; omega) | rfl
  · intro h2
    unfold httpclientMapStatusError specStatusKind
    rw [if_neg h2]
    split_ifs <;> first | (exfalso; omega) | rfl

/-- C2: `ExitCode` maps `nil` to 0, validation to 2, authentication and
authorization to 3, not_found to 4, conflict to 5, transient to 10,
not_implemented to 11, and permanent, internal and unclassified
(non-domain) errors to 1 — for arbitrary messages and causes. -/
theorem exitCode_matches_spec :
    ExitCode none = 0
    ∧ (∀ m c, ExitCode (some (.app ⟨.validation, m, c⟩)) = 2)
    ∧ (∀ m c, ExitCode (some (.app ⟨.authentication, m, c⟩)) = 3)
    ∧ (∀ m c, ExitCode (some (.app ⟨.authorization, m, c⟩)) = 3)
    ∧ (∀ m c, ExitCode (some (.app ⟨.notFound, m, c⟩)) = 4)
    ∧ (∀ m c, ExitCode (some (.app ⟨.conflict, m, c⟩)) = 5)
    ∧ (∀ m c, ExitCode (some (.app ⟨.transient, m, c⟩)) = 10)
    ∧ (∀ m c, ExitCode (some (.app ⟨.notImplemented, m, c⟩)) = 11)
    ∧ (∀ m c, ExitCode (some (.app ⟨.permanent, m, c⟩)) = 1)
    ∧ (∀ m c, ExitCode (some (.app ⟨.internalKind, m, c⟩)) = 1)
    ∧ (∀ m, ExitCode (some (.other m)) = 1) := by
  refine ⟨rfl, ?_, ?_, ?_, ?_, ?_, ?_, ?_, ?_, ?_, ?_⟩ <;> intros <;> rfl

/-- Witness for C1 at status 418 with a nonempty body: the classifier
yields `permanent` there and the non-2xx hypothesis is discharged
concretely. -/
theorem mapStatusError_matches_spec_table_witness :
    (mapStatusError 418 "teapot").map AppError.kind = specStatusKind 418
    ∧ some (httpclientMapStatusError 418 "teapot").kind = specStatusKind 418 :=
  ⟨(mapStatusError_matches_spec_table 418 "teapot").1,
   (mapStatusError_matches_spec_table 418 "teapot").2 (by decide)⟩

/-- `repository.Repository` (the service-level record). -/
structure Repository where
  projectKey : String
  slug : String
  name : String
  isPublic : Bool
  deriving DecidableEq, Repr

/-- `repository.repoValue` with its nested `projectInfo`, flattened to the
fields the drainer reads (`value.Project.Key`, `value.Slug`, `value.Name`,
`value.Public`). -/
structure RepoValue where
  slug : String
  name : String
  isPublic : Bool
  projectKey : String
  deriving DecidableEq, Repr

/-- `repository.pagedRepoResponse`: Go's `json` decoding leaves `values`
as a plain slice, `isLastPage` a plain bool and `nextPageStart` a plain
`int` that defaults to `0` when the field is absent from the envelope. -/
structure PagedRepoResponse where
  values : List RepoValue
  isLastPage : Bool
  nextPageStart : Nat
  deriving DecidableEq, Repr

/-- The loop body of `repository.Service.listPaged`.  The HTTP layer
(`client.GetJSON`) is abstracted as `server limit start`, returning either
a classified error or the decoded envelope — exactly the contract
`listPaged` sees.  `fuel` bounds the number of pages fetched; `none` means
the loop was still running after `fuel` pages (the Go loop has no bound). -/
def listPagedLoop (server : Nat → Nat → Except AppError PagedRepoResponse)
    (limit : Nat) : Nat → Nat → List Repository →
    Option (Except AppError (List Repository))
  | 0, _, _ => none
  | fuel + 1, start, results =>
    match server limit start with
    | .error e => some (.error e)
    | .ok response =>
      let results := results ++ response.values.map
        (fun value => ⟨value.projectKey, value.slug, value.name, value.isPublic⟩)
      if response.isLastPage then
        some (.ok results)
      else
        listPagedLoop server limit fuel response.nextPageStart results

/-- `repository.Service.listPaged`: defaults the page limit to 25 and
drains from offset 0. -/
def listPaged (server : Nat → Nat → Except AppError PagedRepoResponse)
    (limit : Nat) (fuel : Nat) : Option (Except AppError (List Repository)) :=
  listPagedLoop server (if limit ≤ 0 then 25 else limit) fuel 0 []

/-- A page envelope of the generated typed client (`RestComment`/`RestTag`
lists): every field is a nullable pointer in Go. -/
structure RestPage (α : Type) where
  values : Option (List α)
  isLastPage : Option Bool
  nextPageStart : Option Nat
  deriving DecidableEq, Repr

/-- Outcome of one generated-client list call as the services see it:
HTTP status, raw body, and the optionally-decoded typed envelope
(`response.ApplicationjsonCharsetUTF8200`). -/
structure PageResp (α : Type) where
  status : Nat
  body : String
  page : Option (RestPage α)
  deriving DecidableEq, Repr

/-- `RestTag` of the generated client, restricted to the fields the claims
mention; the drainer never inspects them. -/
structure RestTag where
  displayId : Option String
  latestCommit : Option String
  deriving DecidableEq, Repr

/-- `RestComment` of the generated client, restricted to the fields the
comment service reads or writes. -/
structure RestComment where
  id : Option Int
  text : Option String
  version : Option Int
  deriving DecidableEq, Repr

/-- The loop of `tag.Service.List`.  `server start` models
`GetTagsWithResponse` at offset `start` (`none` = transport error); order
and filter parameters do not influence the drain and are omitted from the
server key.  `none` result means the loop was still running after `fuel`
pages. -/
def tagListLoop (server : Nat → Option (PageResp RestTag)) :
    Nat → Nat → List RestTag → Option (Except AppError (List RestTag))
  | 0, _, _ => none
  | fuel + 1, start, results =>
    match server start with
    | none => some (.error (AppError.mk' .transient "failed to list repository tags" none))
    | some response =>
      match mapStatusError response.status response.body with
      | some e => some (.error e)
      | none =>
        match response.page with
        | none => some (.ok results)
        | some page =>
          match page.values with
          | none => some (.ok results)
          | some vs =>
            let results := results ++ vs
            if page.isLastPage = some true then
              some (.ok results)
            else
              match page.nextPageStart with
              | none => some (.ok results)
              | some nps => tagListLoop server fuel nps results

/-- `comment.RepositoryRef` / `tag.RepositoryRef`. -/
structure RepositoryRef where
  projectKey : String
  slug : String
  deriving DecidableEq, Repr

/-- `comment.Target`. -/
structure Target where
  repository : RepositoryRef
  commitId : String
  pullRequestId : String
  deriving DecidableEq, Repr

/-- `comment.validateTarget`: repository fields non-empty and exactly one
of commit / pull request id set. -/
def validateTarget (target : Target) : Option AppError :=
  if trimSpace target.repository.projectKey = "" ∨ trimSpace target.repository.slug = "" then
    some (AppError.mk' .validation "repository must be specified as project/repo" none)
  else if (trimSpace target.commitId ≠ "") = (trimSpace target.pullRequestId ≠ "") then
    some (AppError.mk' .validation "exactly one of commit or pull request id is required" none)
  else
    none

/-- The loop of `comment.Service.List`: each iteration re-checks the
commit/pull-request branch of the target (constant through the loop) and
drains the matching endpoint; `serverCommit`/`serverPR` model
`GetCommentsWithResponse`/`GetComments2WithResponse` at an offset. -/
def commentListLoop (target : Target)
    (serverCommit serverPR : Nat → Option (PageResp RestComment)) :
    Nat → Nat → List RestComment → Option (Except AppError (List RestComment))
  | 0, _, _ => none
  | fuel + 1, start, results =>
    if trimSpace target.commitId ≠ "" then
      match serverCommit start with
      | none => some (.error (AppError.mk' .transient "failed to list commit comments" none))
      | some response =>
        match mapStatusError response.status response.body with
        | some e => some (.error e)
        | none =>
          match response.page with
          | none => some (.ok results)
          | some page =>
            match page.values with
            | none => some (.ok results)
            | some vs =>
              let results := results ++ vs
              if page.isLastPage = some true then
                some (.ok results)
              else
                match page.nextPageStart with
                | none => some (.ok results)
                | some nps => commentListLoop target serverCommit serverPR fuel nps results
    else
      match serverPR start with
      | none => some (.error (AppError.mk' .transient "failed to list pull request comments" none))
      | some response =>
        match mapStatusError response.status response.body with
        | some e => some (.error e)
        | none =>
          match response.page with
          | none => some (.ok results)
          | some page =>
            match page.values with
            | none => some (.ok results)
            | some vs =>
              let results := results ++ vs
              if page.isLastPage = some true then
                some (.ok results)
              else
                match page.nextPageStart with
                | none => some (.ok results)
                | some nps => commentListLoop target serverCommit serverPR fuel nps results

/-- A malformed envelope in the sense of the specification's edge cases,
as the tag/comment drainers actually guard against it: typed payload
absent, values absent, or non-terminal page without a cursor. -/
def malformedPage {α : Type} : Option (RestPage α) → Prop
  | none => True
  | some page =>
    page.values = none ∨ (page.isLastPage ≠ some true ∧ page.nextPageStart = none)

/-- Values contributed by an optional envelope (empty when the payload or
the values list is absent). -/
def pageValues {α : Type} (page : Option (RestPage α)) : List α :=
  (page.bind RestPage.values).getD []

/-- The server the comment list loop actually consults, as selected by the
target's commit/pull-request branch. -/
def commentServerOf (target : Target)
    (serverCommit serverPR : Nat → Option (PageResp RestComment)) :
    Nat → Option (PageResp RestComment) :=
  if trimSpace target.commitId ≠ "" then serverCommit else serverPR

/-- A server that forever answers with the malformed envelope
`isLastPage=false`, `nextPageStart` absent (hence decoded as `0`), empty
values — as `repository.listPaged` sees it after JSON decoding. -/
def malformedRepoServer : Nat → Nat → Except AppError PagedRepoResponse :=
  fun _ _ => .ok ⟨[], false, 0⟩

/-- A server that forever answers 200 with a present-but-empty values
list, `isLastPage=false` and a present cursor `0`. -/
def emptyValuesTagServer : Nat → Option (PageResp RestTag) :=
  fun _ => some ⟨200, "", some ⟨some [], some false, some 0⟩⟩

/-- C3 counterexample: the repository drainer fed the malformed page
(`isLastPage=false`, no `nextPageStart`, empty values) is still looping
after three page fetches instead of terminating after that page; and the
tag drainer fed a present-but-empty values list on a non-terminal page
with a cursor is also still looping after three fetches. -/
theorem drain_malformed_counterexample :
    listPaged malformedRepoServer 25 3 = none
    ∧ tagListLoop emptyValuesTagServer 3 0 [] = none := by
  constructor <;> rfl

/-- C3 (amended): the tag and comment drainers terminate immediately
after a 2xx page whose typed payload is absent, whose values list is
absent, or which is non-terminal (`isLastPage ≠ true`) with no
`nextPageStart` cursor — returning the values accumulated so far plus
that page's contribution; this holds for any remaining fuel, i.e. the
loop stops right there.  (The repository drainer has no such guards, and
a present-but-empty values list does not stop any drainer — see the
counterexample.) -/
theorem optionalDrainers_stop_on_malformed_page
    (serverTag : Nat → Option (PageResp RestTag))
    (target : Target) (serverCommit serverPR : Nat → Option (PageResp RestComment))
    (fuel start : Nat) :
    (∀ (results : List RestTag) (resp : PageResp RestTag),
      serverTag start = some resp →
      mapStatusError resp.status resp.body = none →
      malformedPage resp.page →
      tagListLoop serverTag (fuel + 1) start results
        = some (.ok (results ++ pageValues resp.page)))
    ∧ (∀ (results : List RestComment) (resp : PageResp RestComment),
      commentServerOf target serverCommit serverPR start = some resp →
      mapStatusError resp.status resp.body = none →
      malformedPage resp.page →
      commentListLoop target serverCommit serverPR (fuel + 1) start results
        = some (.ok (results ++ pageValues resp.page))) := by
  constructor
  · intro results resp hresp hok hmal
    cases hpage : resp.page with
    | none =>
      simp [tagListLoop, hresp, hok, hpage, pageValues]
    | some page =>
      rw [hpage] at hmal
      simp only [malformedPage] at hmal
      cases hvs : page.values with
      | none =>
        simp [tagListLoop, hresp, hok, hpage, hvs, pageValues]
      | some vs =>
        rcases hmal with hmal | ⟨hlast, hnps⟩
        · exact absurd (hvs ▸ hmal) (by simp)
        · simp [tagListLoop, hresp, hok, hpage, hvs, if_neg hlast, hnps, pageValues]
  · intro results resp hresp hok hmal
    by_cases hb : trimSpace target.commitId ≠ ""
    · rw [commentServerOf, if_pos hb] at hresp
      cases hpage : resp.page with
      | none =>
        simp [commentListLoop, hb, hresp, hok, hpage, pageValues]
      | some page =>
        rw [hpage] at hmal
        simp only [malformedPage] at hmal
        cases hvs : page.values with
        | none =>
          simp [commentListLoop, hb, hresp, hok, hpage, hvs, pageValues]
        | some vs =>
          rcases hmal with hmal | ⟨hlast, hnps⟩
          · exact absurd (hvs ▸ hmal) (by simp)
          · simp [commentListLoop, hb, hresp, hok, hpage, hvs, if_neg hlast, hnps, pageValues]
    · rw [commentServerOf, if_neg hb] at hresp
      cases hpage : resp.page with
      | none =>
        simp [commentListLoop, hb, hresp, hok, hpage, pageValues]
      | some page =>
        rw [hpage] at hmal
        simp only [malformedPage] at hmal
        cases hvs : page.values with
        | none =>
          simp [commentListLoop, hb, hresp, hok, hpage, hvs, pageValues]
        | some vs =>
          rcases hmal with hmal | ⟨hlast, hnps⟩
          · exact absurd (hvs ▸ hmal) (by simp)
          · simp [commentListLoop, hb, hresp, hok, hpage, hvs, if_neg hlast, hnps, pageValues]

/-- Concrete malformed-cursor page server for the C3 witness. -/
def noCursorTagServer : Nat → Option (PageResp RestTag) :=
  fun _ => some ⟨200, "", some ⟨some [], some false, none⟩⟩

/-- Concrete malformed-cursor comment page server for the C3 witness. -/
def noCursorCommentServer : Nat → Option (PageResp RestComment) :=
  fun _ => some ⟨200, "", some ⟨some [], some false, none⟩⟩

/-- Concrete commit-branch target for the C3 witness. -/
def commitTarget : Target := ⟨⟨"PRJ", "demo"⟩, "abc", ""⟩

/-- Witness for the amended C3: on a page with `isLastPage=false` and no
cursor, one unit of fuel suffices — the tag and comment drains stop right
after that page. -/
theorem optionalDrainers_stop_on_malformed_page_witness :
    tagListLoop noCursorTagServer 1 0 [] = some (.ok [])
    ∧ commentListLoop commitTarget noCursorCommentServer noCursorCommentServer 1 0 []
        = some (.ok []) := by
  have h := optionalDrainers_stop_on_malformed_page noCursorTagServer
    commitTarget noCursorCommentServer noCursorCommentServer 0 0
  refine ⟨h.1 [] ⟨200, "", some ⟨some [], some false, none⟩⟩ rfl rfl ?_,
          h.2 [] ⟨200, "", some ⟨some [], some false, none⟩⟩ (by rfl) rfl ?_⟩
  · exact Or.inr ⟨by decide, rfl⟩
  · exact Or.inr ⟨by decide, rfl⟩

/-- A paged repository server built from a finite list of pages addressed
by their offset: page `i` is served at `start = i` (the limit parameter
does not influence which page is returned). -/
def repoServerOfPages (pages : List PagedRepoResponse) :
    Nat → Nat → Except AppError PagedRepoResponse :=
  fun _limit start =>
    match pages[start]? with
    | some page => .ok page
    | none => .error (AppError.mk' .internalKind "page offset out of range" none)

/-- Well-formed repository page sequence: every page but the last is
non-terminal and points at the next page's offset; the last page carries
`isLastPage=true`. -/
def RepoChained (pages : List PagedRepoResponse) : Prop :=
  ∀ i (h : i < pages.length),
    if i + 1 < pages.length then
      pages[i].isLastPage = false ∧ pages[i].nextPageStart = i + 1
    else
      pages[i].isLastPage = true

/-- The repository rows contributed by one page, in page order. -/
def repoPageRows (page : PagedRepoResponse) : List Repository :=
  page.values.map (fun value => ⟨value.projectKey, value.slug, value.name, value.isPublic⟩)

/-- Invariant step for the repository drainer: from any offset into a
chained page list, with enough fuel left, the loop returns the
accumulator followed by the concatenation of the remaining pages'
values in order. -/
theorem listPagedLoop_chained (pages : List PagedRepoResponse)
    (hchain : RepoChained pages) (limit : Nat) :
    ∀ (fuel i : Nat), i < pages.length → ∀ (acc : List Repository),
      pages.length - i ≤ fuel →
      listPagedLoop (repoServerOfPages pages) limit fuel i acc
        = some (.ok (acc ++ (pages.drop i).flatMap repoPageRows)) := by
  intro fuel
  induction fuel with
  | zero =>
    intro i h acc hfuel
    omega
  | succ fuel ih =>
    intro i h acc hfuel
    have hpage : pages[i]? = some pages[i] := List.getElem?_eq_getElem h
    have hdrop : pages.drop i = pages[i] :: pages.drop (i + 1) :=
      List.drop_eq_getElem_cons h
    have hc := hchain i h
    by_cases hnext : i + 1 < pages.length
    · rw [if_pos hnext] at hc
      rw [listPagedLoop]
      simp only [repoServerOfPages, hpage]
      rw [hc.1, hc.2]
      simp only [Bool.false_eq_true, if_false]
      rw [ih (i + 1) hnext _ (by omega)]
      rw [hdrop, List.flatMap_cons, ← List.append_assoc]
      rfl
    · rw [if_neg hnext] at hc
      rw [listPagedLoop]
      simp only [repoServerOfPages, hpage]
      rw [hc]
      simp only [if_true]
      rw [hdrop]
      have hnil : pages.drop (i + 1) = [] := List.drop_eq_nil_of_le (by omega)
      rw [hnil, List.flatMap_cons, List.flatMap_nil, List.append_nil]
      rfl

/-- An optional-envelope page server built from a finite list of typed
pages addressed by offset, always answering 200 with an empty body. -/
def optServerOfPages {α : Type} (pages : List (RestPage α)) :
    Nat → Option (PageResp α) :=
  fun start => some ⟨200, "", pages[start]?⟩

/-- Well-formed optional-envelope page sequence: values present on every
page, every page but the last non-terminal with a cursor to the next
offset, last page terminal. -/
def OptChained {α : Type} (pages : List (RestPage α)) : Prop :=
  ∀ i (h : i < pages.length),
    pages[i].values ≠ none ∧
    (if i + 1 < pages.length then
      pages[i].isLastPage ≠ some true ∧ pages[i].nextPageStart = some (i + 1)
    else
      pages[i].isLastPage = some true)

/-- The values contributed by one optional-envelope page. -/
def optPageRows {α : Type} (page : RestPage α) : List α :=
  page.values.getD []

/-- Invariant step for the tag drainer over a chained page list. -/
theorem tagListLoop_chained (pages : List (RestPage RestTag))
    (hchain : OptChained pages) :
    ∀ (fuel i : Nat), i < pages.length → ∀ (acc : List RestTag),
      pages.length - i ≤ fuel →
      tagListLoop (optServerOfPages pages) fuel i acc
        = some (.ok (acc ++ (pages.drop i).flatMap optPageRows)) := by
  intro fuel
  induction fuel with
  | zero =>
    intro i h acc hfuel
    omega
  | succ fuel ih =>
    intro i h acc hfuel
    have hpage : pages[i]? = some pages[i] := List.getElem?_eq_getElem h
    have hdrop : pages.drop i = pages[i] :: pages.drop (i + 1) :=
      List.drop_eq_getElem_cons h
    have hc := hchain i h
    obtain ⟨hvalues, hrest⟩ := hc
    obtain ⟨vs, hvs⟩ := Option.ne_none_iff_exists'.mp hvalues
    have hok : mapStatusError 200 "" = none := rfl
    rw [tagListLoop]
    simp only [optServerOfPages, hpage, hok, hvs]
    by_cases hnext : i + 1 < pages.length
    · rw [if_pos hnext] at hrest
      rw [if_neg hrest.1, hrest.2]
      dsimp only
      rw [ih (i + 1) hnext _ (by omega)]
      rw [hdrop, List.flatMap_cons, ← List.append_assoc]
      have hrows : optPageRows pages[i] = vs := by
        rw [optPageRows, hvs]
        rfl
      rw [hrows]
    · rw [if_neg hnext] at hrest
      rw [if_pos hrest]
      rw [hdrop]
      have hnil : pages.drop (i + 1) = [] := List.drop_eq_nil_of_le (by omega)
      rw [hnil, List.flatMap_cons, List.flatMap_nil, List.append_nil]
      have hrows : optPageRows pages[i] = vs := by
        rw [optPageRows, hvs]
        rfl
      rw [hrows]

/-- Invariant step for the comment drainer over a chained page list: the
server consulted by the target's branch serves the chained pages. -/
theorem commentListLoop_chained (pages : List (RestPage RestComment))
    (hchain : OptChained pages) (target : Target)
    (serverCommit serverPR : Nat → Option (PageResp RestComment))
    (hservers : commentServerOf target serverCommit serverPR = optServerOfPages pages) :
    ∀ (fuel i : Nat), i < pages.length → ∀ (acc : List RestComment),
      pages.length - i ≤ fuel →
      commentListLoop target serverCommit serverPR fuel i acc
        = some (.ok (acc ++ (pages.drop i).flatMap optPageRows)) := by
  by_cases hb : trimSpace target.commitId ≠ ""
  · rw [commentServerOf, if_pos hb] at hservers
    subst hservers
    intro fuel
    induction fuel with
    | zero =>
      intro i h acc hfuel
      omega
    | succ fuel ih =>
      intro i h acc hfuel
      have hpage : pages[i]? = some pages[i] := List.getElem?_eq_getElem h
      have hdrop : pages.drop i = pages[i] :: pages.drop (i + 1) :=
        List.drop_eq_getElem_cons h
      obtain ⟨hvalues, hrest⟩ := hchain i h
      obtain ⟨vs, hvs⟩ := Option.ne_none_iff_exists'.mp hvalues
      have hok : mapStatusError 200 "" = none := rfl
      rw [commentListLoop, if_pos hb]
      simp only [optServerOfPages, hpage, hok, hvs]
      by_cases hnext : i + 1 < pages.length
      · rw [if_pos hnext] at hrest
        rw [if_neg hrest.1, hrest.2]
        dsimp only
        rw [ih (i + 1) hnext _ (by omega)]
        rw [hdrop, List.flatMap_cons, ← List.append_assoc]
        have hrows : optPageRows pages[i] = vs := by
          rw [optPageRows, hvs]
          rfl
        rw [hrows]
      · rw [if_neg hnext] at hrest
        rw [if_pos hrest]
        rw [hdrop]
        have hnil : pages.drop (i + 1) = [] := List.drop_eq_nil_of_le (by omega)
        rw [hnil, List.flatMap_cons, List.flatMap_nil, List.append_nil]
        have hrows : optPageRows pages[i] = vs := by
          rw [optPageRows, hvs]
          rfl
        rw [hrows]
  · rw [commentServerOf, if_neg hb] at hservers
    subst hservers
    intro fuel
    induction fuel with
    | zero =>
      intro i h acc hfuel
      omega
    | succ fuel ih =>
      intro i h acc hfuel
      have hpage : pages[i]? = some pages[i] := List.getElem?_eq_getElem h
      have hdrop : pages.drop i = pages[i] :: pages.drop (i + 1) :=
        List.drop_eq_getElem_cons h
      obtain ⟨hvalues, hrest⟩ := hchain i h
      obtain ⟨vs, hvs⟩ := Option.ne_none_iff_exists'.mp hvalues
      have hok : mapStatusError 200 "" = none := rfl
      rw [commentListLoop, if_neg hb]
      simp only [optServerOfPages, hpage, hok, hvs]
      by_cases hnext : i + 1 < pages.length
      · rw [if_pos hnext] at hrest
        rw [if_neg hrest.1, hrest.2]
        dsimp only
        rw [ih (i + 1) hnext _ (by omega)]
        rw [hdrop, List.flatMap_cons, ← List.append_assoc]
        have hrows : optPageRows pages[i] = vs := by
          rw [optPageRows, hvs]
          rfl
        rw [hrows]
      · rw [if_neg hnext] at hrest
        rw [if_pos hrest]
        rw [hdrop]
        have hnil : pages.drop (i + 1) = [] := List.drop_eq_nil_of_le (by omega)
        rw [hnil, List.flatMap_cons, List.flatMap_nil, List.append_nil]
        have hrows : optPageRows pages[i] = vs := by
          rw [optPageRows, hvs]
          rfl
        rw [hrows]

/-- C4: over any finite well-formed chained page sequence whose final page
is terminal, each drainer — repository `listPaged`, tag list, comment list
(whichever endpoint branch the target selects) — terminates within
`length` page fetches and returns exactly the concatenation of all pages'
values in server page order and within-page order (no reordering,
deduplication or sorting). -/
theorem drainers_return_page_concatenation
    (pagesRepo : List PagedRepoResponse) (pagesTag : List (RestPage RestTag))
    (pagesComment : List (RestPage RestComment))
    (target : Target) (serverCommit serverPR : Nat → Option (PageResp RestComment))
    (limit fuelRepo fuelTag fuelComment : Nat) :
    (RepoChained pagesRepo → pagesRepo ≠ [] → pagesRepo.length ≤ fuelRepo →
      listPaged (repoServerOfPages pagesRepo) limit fuelRepo
        = some (.ok (pagesRepo.flatMap repoPageRows)))
    ∧ (OptChained pagesTag → pagesTag ≠ [] → pagesTag.length ≤ fuelTag →
      tagListLoop (optServerOfPages pagesTag) fuelTag 0 []
        = some (.ok (pagesTag.flatMap optPageRows)))
    ∧ (OptChained pagesComment → pagesComment ≠ [] → pagesComment.length ≤ fuelComment →
      commentServerOf target serverCommit serverPR = optServerOfPages pagesComment →
      commentListLoop target serverCommit serverPR fuelComment 0 []
        = some (.ok (pagesComment.flatMap optPageRows))) := by
  refine ⟨?_, ?_, ?_⟩
  · intro hchain hne hfuel
    have hlen : 0 < pagesRepo.length := List.length_pos.mpr hne
    rw [listPaged]
    rw [listPagedLoop_chained pagesRepo hchain _ fuelRepo 0 hlen [] (by omega)]
    rw [List.drop_zero, List.nil_append]
  · intro hchain hne hfuel
    have hlen : 0 < pagesTag.length := List.length_pos.mpr hne
    rw [tagListLoop_chained pagesTag hchain fuelTag 0 hlen [] (by omega)]
    rw [List.drop_zero, List.nil_append]
  · intro hchain hne hfuel hservers
    have hlen : 0 < pagesComment.length := List.length_pos.mpr hne
    rw [commentListLoop_chained pagesComment hchain target serverCommit serverPR
      hservers fuelComment 0 hlen [] (by omega)]
    rw [List.drop_zero, List.nil_append]

/-- Two chained repository pages for the C4 witness. -/
def twoRepoPages : List PagedRepoResponse :=
  [⟨[⟨"r1", "Repo One", false, "PRJ"⟩], false, 1⟩,
   ⟨[⟨"r2", "Repo Two", true, "PRJ"⟩], true, 2⟩]

/-- Two chained tag pages for the C4 witness. -/
def twoTagPages : List (RestPage RestTag) :=
  [⟨some [⟨some "v1", some "c1"⟩], some false, some 1⟩,
   ⟨some [⟨some "v2", some "c2"⟩], some true, none⟩]

/-- Two chained comment pages for the C4 witness. -/
def twoCommentPages : List (RestPage RestComment) :=
  [⟨some [⟨some 1, some "a", some 1⟩], some false, some 1⟩,
   ⟨some [⟨some 2, some "b", some 1⟩], some true, none⟩]

/-- Witness for C4 on two-page sequences: every drainer returns the two
pages' values concatenated in order. -/
theorem drainers_return_page_concatenation_witness :
    listPaged (repoServerOfPages twoRepoPages) 25 2
      = some (.ok [⟨"PRJ", "r1", "Repo One", false⟩, ⟨"PRJ", "r2", "Repo Two", true⟩])
    ∧ tagListLoop (optServerOfPages twoTagPages) 2 0 []
      = some (.ok [⟨some "v1", some "c1"⟩, ⟨some "v2", some "c2"⟩])
    ∧ commentListLoop commitTarget (optServerOfPages twoCommentPages)
        (optServerOfPages twoCommentPages) 2 0 []
      = some (.ok [⟨some 1, some "a", some 1⟩, ⟨some 2, some "b", some 1⟩]) := by
  have h := drainers_return_page_concatenation twoRepoPages twoTagPages twoCommentPages
    commitTarget (optServerOfPages twoCommentPages) (optServerOfPages twoCommentPages)
    25 2 2 2
  refine ⟨h.1 (by unfold RepoChained; decide) (by decide) (by decide),
          h.2.1 (by unfold OptChained; decide) (by decide) (by decide),
          h.2.2 (by unfold OptChained; decide) (by decide) (by decide) ?_⟩
  rw [commentServerOf, if_pos (by decide)]

/-- The environment variables `config.LoadFromEnv` reads.  Go's
`os.Getenv` returns `""` for unset variables (the code never distinguishes
unset from empty), so each variable is a plain string. -/
structure Env where
  bitbucketURL : String
  bitbucketVersionTarget : String
  bitbucketProjectKey : String
  bitbucketToken : String
  bitbucketUsername : String
  bitbucketUser : String
  adminUser : String
  bitbucketPassword : String
  adminPassword : String
  bbscDisableStoredConfig : String
  deriving DecidableEq, Repr

/-- `defaultBitbucketURL` constant. -/
def defaultBitbucketURL : String := "http://localhost:7990"

/-- `defaultBitbucketVersionTarget` constant. -/
def defaultBitbucketVersionTarget : String := "9.4.16"

/-- `defaultProjectKey` constant. -/
def defaultProjectKey : String := "TEST"

/-- `config.AppConfig`. -/
structure AppConfig where
  bitbucketURL : String := ""
  bitbucketVersionTarget : String := ""
  projectKey : String := ""
  bitbucketToken : String := ""
  bitbucketUsername : String := ""
  bitbucketPassword : String := ""
  authSource : String := ""
  deriving DecidableEq, Repr

/-- `config.StoredProfile`. -/
structure StoredProfile where
  url : String
  username : String
  authMode : String
  deriving DecidableEq, Repr

/-- `config.StoredSecret`. -/
structure StoredSecret where
  token : String
  password : String
  deriving DecidableEq, Repr

/-- `config.StoredConfig`; the Go maps become association lists with
unique keys. -/
structure StoredConfig where
  defaultHost : String
  hosts : List (String × StoredProfile)
  insecureSecrets : List (String × StoredSecret)
  deriving DecidableEq, Repr

/-- Go map lookup over the association-list model (first match). -/
def assocLookup {β : Type} (entries : List (String × β)) (key : String) : Option β :=
  match entries with
  | [] => none
  | (k, v) :: rest => if k = key then some v else assocLookup rest key

/-- `config.envOrDefault`: the trimmed value, or the fallback when it
trims to empty. -/
def envOrDefault (value fallback : String) : String :=
  if trimSpace value = "" then fallback else trimSpace value

/-- Model of Go `strings.Contains` over character lists. -/
def containsSeq (needle : List Char) : List Char → Bool
  | [] => needle.isEmpty
  | c :: rest => needle.isPrefixOf (c :: rest) || containsSeq needle rest

/-- `config.normalizeURL`: trim; keep as-is when empty or already
containing `://`; otherwise default the scheme to `http://`. -/
def normalizeURL (value : String) : String :=
  let trimmed := trimSpace value
  if trimmed = "" then trimmed
  else if containsSeq "://".data trimmed.data then trimmed
  else "http://" ++ trimmed

/-- Split a character list at the first occurrence of `://`, dropping the
separator (`none` when the separator does not occur). -/
def breakOnSchemeSep : List Char → Option (List Char × List Char)
  | [] => none
  | c :: rest =>
    if (':' :: '/' :: '/' :: []).isPrefixOf (c :: rest) then
      some ([], (c :: rest).drop 3)
    else
      match breakOnSchemeSep rest with
      | some (before, after) => some (c :: before, after)
      | none => none

/-- Lowercase a string character-wise. -/
def toLowerStr (s : String) : String := String.mk (s.data.map Char.toLower)

/-- `config.hostKey`, with `net/url.Parse` modelled shallowly for the
`scheme://host[/path...]` shapes this code produces: the key is the
lowercased `scheme://host` of the normalized URL (host cut at the first
slash); a URL without `://` (only possible for the empty string after
`normalizeURL`) falls back to the normalized input, as the Go parse-error
branch does. -/
def hostKey (hostURL : String) : String :=
  let normalized := normalizeURL hostURL
  match breakOnSchemeSep normalized.data with
  | some (scheme, rest) =>
    toLowerStr (String.mk (scheme ++ (':' :: '/' :: '/' :: []) ++ rest.takeWhile (fun c => c != '/')))
  | none => normalized

/-- `config.resolveStoredCredentials`: look the host profile up by the
runtime URL's host key, falling back to the configured default host;
secrets come from the keyring (`kr` maps `"<hostkey>:token"` /
`"<hostkey>:password"` to stored values, `none` modelling a failed read),
then from the insecure on-disk record for fields still empty. -/
def resolveStoredCredentials (kr : String → Option String) (stored : StoredConfig)
    (runtimeURL : String) : Option AppConfig :=
  if stored.hosts.isEmpty then none
  else
    let key0 := hostKey runtimeURL
    let found :=
      match assocLookup stored.hosts key0 with
      | some profile => some (key0, profile)
      | none =>
        if stored.defaultHost = "" then none
        else
          match assocLookup stored.hosts stored.defaultHost with
          | some profile => some (stored.defaultHost, profile)
          | none => none
    match found with
    | none => none
    | some (key, profile) =>
      let resolved : AppConfig :=
        { bitbucketURL := normalizeURL profile.url, bitbucketUsername := profile.username }
      let resolved :=
        match kr (key ++ ":token") with
        | some token =>
          if trimSpace token ≠ "" then { resolved with bitbucketToken := token } else resolved
        | none => resolved
      let resolved :=
        match kr (key ++ ":password") with
        | some password =>
          if trimSpace password ≠ "" then { resolved with bitbucketPassword := password } else resolved
        | none => resolved
      let resolved :=
        if resolved.bitbucketToken = "" ∨ resolved.bitbucketPassword = "" then
          match assocLookup stored.insecureSecrets key with
          | some insecure =>
            let withToken :=
              if resolved.bitbucketToken = "" then
                { resolved with bitbucketToken := insecure.token }
              else resolved
            if withToken.bitbucketPassword = "" then
              { withToken with bitbucketPassword := insecure.password }
            else withToken
          | none => resolved
        else resolved
      some resolved

/-- The URL-resolution steps of `LoadFromEnv` (lines preceding the config
literal): environment host, else the default host's stored profile, else
the built-in default. -/
def resolvedURLOf (env : Env) (storedConfig : StoredConfig) : String :=
  let envHost := trimSpace env.bitbucketURL
  let resolvedURL :=
    if envHost ≠ "" then normalizeURL envHost
    else if storedConfig.defaultHost ≠ "" then
      match assocLookup storedConfig.hosts storedConfig.defaultHost with
      | some profile => normalizeURL profile.url
      | none => ""
    else ""
  if resolvedURL = "" then defaultBitbucketURL else resolvedURL

/-- The username environment chain of `LoadFromEnv`
(`BITBUCKET_USERNAME`, alias `BITBUCKET_USER`, fallback `ADMIN_USER`). -/
def envUsernameOf (env : Env) : String :=
  envOrDefault env.bitbucketUsername (envOrDefault env.bitbucketUser (envOrDefault env.adminUser ""))

/-- The password environment chain of `LoadFromEnv`
(`BITBUCKET_PASSWORD`, fallback `ADMIN_PASSWORD`). -/
def envPasswordOf (env : Env) : String :=
  envOrDefault env.bitbucketPassword (envOrDefault env.adminPassword "")

/-- The raw (untrimmed) auth-environment check of `LoadFromEnv` line 108:
true when any auth-related variable is set to a nonempty raw value. -/
def anyAuthEnvSet (env : Env) : Bool :=
  (env.bitbucketToken != "") || (env.bitbucketUsername != "") || (env.bitbucketUser != "")
    || (env.bitbucketPassword != "") || (env.adminUser != "") || (env.adminPassword != "")

/-- The three gap-filling assignments of `LoadFromEnv` lines 94-102. -/
def fillStored (config stored : AppConfig) : AppConfig :=
  let config :=
    if config.bitbucketUsername = "" ∧ stored.bitbucketUsername ≠ "" then
      { config with bitbucketUsername := stored.bitbucketUsername }
    else config
  let config :=
    if config.bitbucketToken = "" ∧ stored.bitbucketToken ≠ "" then
      { config with bitbucketToken := stored.bitbucketToken }
    else config
  if config.bitbucketPassword = "" ∧ stored.bitbucketPassword ≠ "" then
    { config with bitbucketPassword := stored.bitbucketPassword }
  else config

/-- Gap filling plus the `AuthSource = "stored"` assignment of
`LoadFromEnv` lines 94-105. -/
def applyStored (config stored : AppConfig) : AppConfig :=
  let filled := fillStored config stored
  if filled.bitbucketToken ≠ "" ∨ (filled.bitbucketUsername ≠ "" ∧ filled.bitbucketPassword ≠ "") then
    { filled with authSource := "stored" }
  else filled

/-- The resolution part of `config.LoadFromEnv` (everything before
`Validate`), as a pure function of the environment, the decoded stored
configuration and the keyring. -/
def resolveAppConfig (env : Env) (storedConfig : StoredConfig)
    (kr : String → Option String) : AppConfig :=
  let config : AppConfig := {
    bitbucketURL := resolvedURLOf env storedConfig,
    bitbucketVersionTarget := envOrDefault env.bitbucketVersionTarget defaultBitbucketVersionTarget,
    projectKey := envOrDefault env.bitbucketProjectKey defaultProjectKey,
    bitbucketToken := envOrDefault env.bitbucketToken "",
    bitbucketUsername := envUsernameOf env,
    bitbucketPassword := envPasswordOf env,
    authSource := "env/default" }
  if env.bbscDisableStoredConfig ≠ "1" then
    let config :=
      match resolveStoredCredentials kr storedConfig config.bitbucketURL with
      | some stored => applyStored config stored
      | none => config
    if anyAuthEnvSet env then { config with authSource := "env" } else config
  else config

/-- `AppConfig.Validate`, with `url.Parse` modelled as in `hostKey`
(scheme and host both present), the project-key emptiness/length checks,
and the username/password pairing check.  The `%q`-formatted URL is
elided from the message. -/
def validateAppConfig (config : AppConfig) : Option AppError :=
  let urlOk :=
    match breakOnSchemeSep config.bitbucketURL.data with
    | some (scheme, rest) =>
      (!scheme.isEmpty) && (!(rest.takeWhile (fun c => c != '/')).isEmpty)
    | none => false
  if !urlOk then
    some (AppError.mk' .validation "BITBUCKET_URL is invalid" none)
  else
    let projectKey := trimSpace config.projectKey
    if projectKey = "" then
      some (AppError.mk' .validation "BITBUCKET_PROJECT_KEY cannot be empty" none)
    else if 20 < projectKey.data.length then
      some (AppError.mk' .validation "BITBUCKET_PROJECT_KEY cannot exceed 20 characters" none)
    else if (config.bitbucketUsername = "") ≠ (config.bitbucketPassword = "") then
      some (AppError.mk' .validation "BITBUCKET_USERNAME and BITBUCKET_PASSWORD must be set together" none)
    else
      none

/-- `config.LoadFromEnv`: resolve, then validate. -/
def LoadFromEnv (env : Env) (storedConfig : StoredConfig)
    (kr : String → Option String) : Except AppError AppConfig :=
  let config := resolveAppConfig env storedConfig kr
  match validateAppConfig config with
  | some e => .error e
  | none => .ok config

/-- `trimSpace` is idempotent. -/
theorem trimSpace_idem (s : String) : trimSpace (trimSpace s) = trimSpace s := by
  unfold trimSpace
  congr 1
  show (((((s.data.dropWhile Char.isWhitespace).reverse.dropWhile
      Char.isWhitespace).reverse).dropWhile Char.isWhitespace).reverse.dropWhile
      Char.isWhitespace).reverse
    = ((s.data.dropWhile Char.isWhitespace).reverse.dropWhile Char.isWhitespace).reverse
  rw [show ∀ l : List Char, (l.reverse.dropWhile Char.isWhitespace).reverse
      = l.rdropWhile Char.isWhitespace from fun l => rfl]
  rw [show ∀ l : List Char, (l.reverse.dropWhile Char.isWhitespace).reverse
      = l.rdropWhile Char.isWhitespace from fun l => rfl]
  set u := s.data.dropWhile Char.isWhitespace with hu
  have h1 : List.dropWhile Char.isWhitespace (u.rdropWhile Char.isWhitespace)
      = u.rdropWhile Char.isWhitespace := by
    rw [List.dropWhile_eq_self_iff]
    intro hl
    have hpre : u.rdropWhile Char.isWhitespace <+: u := List.rdropWhile_prefix _ _
    have h0 : 0 < u.length := lt_of_lt_of_le hl hpre.length_le
    have hhead : (u.rdropWhile Char.isWhitespace).get ⟨0, hl⟩ = u.get ⟨0, h0⟩ := by
      simp only [List.get_eq_getElem]
      exact hpre.getElem hl
    rw [hhead]
    exact List.dropWhile_get_zero_not _ _ h0
  rw [h1, List.rdropWhile_idempotent]

/-- A normalized nonempty-after-trim URL is nonempty. -/
theorem normalizeURL_ne_empty (x : String) (h : trimSpace x ≠ "") :
    normalizeURL x ≠ "" := by
  unfold normalizeURL
  rw [if_neg h]
  split_ifs with hc
  · exact h
  · intro habs
    have hdata := congrArg String.data habs
    rw [show ("http://" ++ trimSpace x).data = "http://".data ++ (trimSpace x).data
        from rfl] at hdata
    have := List.append_eq_nil.mp (by exact_mod_cast hdata)
    exact absurd this.1 (by decide)

/-- The URL contributed by the stored default-host profile (empty when
absent). -/
def storedDefaultURL (storedConfig : StoredConfig) : String :=
  if storedConfig.defaultHost ≠ "" then
    match assocLookup storedConfig.hosts storedConfig.defaultHost with
    | some profile => normalizeURL profile.url
    | none => ""
  else ""

theorem fillStored_url (c s : AppConfig) : (fillStored c s).bitbucketURL = c.bitbucketURL := by
  simp only [fillStored]
  split_ifs <;> rfl

theorem fillStored_authSource (c s : AppConfig) :
    (fillStored c s).authSource = c.authSource := by
  simp only [fillStored]
  split_ifs <;> rfl

theorem fillStored_token (c s : AppConfig) :
    (fillStored c s).bitbucketToken
      = if c.bitbucketToken = "" ∧ s.bitbucketToken ≠ "" then s.bitbucketToken
        else c.bitbucketToken := by
  simp only [fillStored]
  split_ifs <;> simp_all

theorem fillStored_username (c s : AppConfig) :
    (fillStored c s).bitbucketUsername
      = if c.bitbucketUsername = "" ∧ s.bitbucketUsername ≠ "" then s.bitbucketUsername
        else c.bitbucketUsername := by
  simp only [fillStored]
  split_ifs <;> simp_all

theorem fillStored_password (c s : AppConfig) :
    (fillStored c s).bitbucketPassword
      = if c.bitbucketPassword = "" ∧ s.bitbucketPassword ≠ "" then s.bitbucketPassword
        else c.bitbucketPassword := by
  simp only [fillStored]
  split_ifs <;> simp_all

theorem applyStored_url (c s : AppConfig) :
    (applyStored c s).bitbucketURL = c.bitbucketURL := by
  simp only [applyStored]
  split_ifs <;> simp [fillStored_url]

theorem applyStored_token (c s : AppConfig) :
    (applyStored c s).bitbucketToken = (fillStored c s).bitbucketToken := by
  simp only [applyStored]
  split_ifs <;> rfl

theorem applyStored_username (c s : AppConfig) :
    (applyStored c s).bitbucketUsername = (fillStored c s).bitbucketUsername := by
  simp only [applyStored]
  split_ifs <;> rfl

theorem applyStored_password (c s : AppConfig) :
    (applyStored c s).bitbucketPassword = (fillStored c s).bitbucketPassword := by
  simp only [applyStored]
  split_ifs <;> rfl

theorem applyStored_authSource (c s : AppConfig) :
    (applyStored c s).authSource
      = if (fillStored c s).bitbucketToken ≠ ""
          ∨ ((fillStored c s).bitbucketUsername ≠ "" ∧ (fillStored c s).bitbucketPassword ≠ "")
        then "stored" else c.authSource := by
  simp only [applyStored]
  split_ifs <;> simp [fillStored_authSource]

theorem resolveAppConfig_url (env : Env) (sc : StoredConfig) (kr : String → Option String) :
    (resolveAppConfig env sc kr).bitbucketURL = resolvedURLOf env sc := by
  simp only [resolveAppConfig]
  by_cases hdis : env.bbscDisableStoredConfig ≠ "1"
  · rw [if_pos hdis]
    cases hres : resolveStoredCredentials kr sc (resolvedURLOf env sc) with
    | none =>
      simp only [hres]
      by_cases hany : anyAuthEnvSet env <;> simp [hany]
    | some st =>
      simp only [hres]
      by_cases hany : anyAuthEnvSet env <;> simp [hany, applyStored_url]
  · rw [if_neg hdis]

theorem resolveAppConfig_token (env : Env) (sc : StoredConfig) (kr : String → Option String) :
    (resolveAppConfig env sc kr).bitbucketToken
      = if env.bbscDisableStoredConfig ≠ "1" then
          match resolveStoredCredentials kr sc (resolvedURLOf env sc) with
          | some st =>
            if envOrDefault env.bitbucketToken "" = "" ∧ st.bitbucketToken ≠ "" then
              st.bitbucketToken
            else envOrDefault env.bitbucketToken ""
          | none => envOrDefault env.bitbucketToken ""
        else envOrDefault env.bitbucketToken "" := by
  simp only [resolveAppConfig]
  by_cases hdis : env.bbscDisableStoredConfig ≠ "1"
  · rw [if_pos hdis, if_pos hdis]
    cases hres : resolveStoredCredentials kr sc (resolvedURLOf env sc) with
    | none =>
      simp only [hres]
      by_cases hany : anyAuthEnvSet env <;> simp [hany]
    | some st =>
      simp only [hres]
      by_cases hany : anyAuthEnvSet env <;>
        simp [hany, applyStored_token, fillStored_token]
  · rw [if_neg hdis, if_neg hdis]

theorem resolveAppConfig_username (env : Env) (sc : StoredConfig) (kr : String → Option String) :
    (resolveAppConfig env sc kr).bitbucketUsername
      = if env.bbscDisableStoredConfig ≠ "1" then
          match resolveStoredCredentials kr sc (resolvedURLOf env sc) with
          | some st =>
            if envUsernameOf env = "" ∧ st.bitbucketUsername ≠ "" then
              st.bitbucketUsername
            else envUsernameOf env
          | none => envUsernameOf env
        else envUsernameOf env := by
  simp only [resolveAppConfig]
  by_cases hdis : env.bbscDisableStoredConfig ≠ "1"
  · rw [if_pos hdis, if_pos hdis]
    cases hres : resolveStoredCredentials kr sc (resolvedURLOf env sc) with
    | none =>
      simp only [hres]
      by_cases hany : anyAuthEnvSet env <;> simp [hany]
    | some st =>
      simp only [hres]
      by_cases hany : anyAuthEnvSet env <;>
        simp [hany, applyStored_username, fillStored_username]
  · rw [if_neg hdis, if_neg hdis]

theorem resolveAppConfig_password (env : Env) (sc : StoredConfig) (kr : String → Option String) :
    (resolveAppConfig env sc kr).bitbucketPassword
      = if env.bbscDisableStoredConfig ≠ "1" then
          match resolveStoredCredentials kr sc (resolvedURLOf env sc) with
          | some st =>
            if envPasswordOf env = "" ∧ st.bitbucketPassword ≠ "" then
              st.bitbucketPassword
            else envPasswordOf env
          | none => envPasswordOf env
        else envPasswordOf env := by
  simp only [resolveAppConfig]
  by_cases hdis : env.bbscDisableStoredConfig ≠ "1"
  · rw [if_pos hdis, if_pos hdis]
    cases hres : resolveStoredCredentials kr sc (resolvedURLOf env sc) with
    | none =>
      simp only [hres]
      by_cases hany : anyAuthEnvSet env <;> simp [hany]
    | some st =>
      simp only [hres]
      by_cases hany : anyAuthEnvSet env <;>
        simp [hany, applyStored_password, fillStored_password]
  · rw [if_neg hdis, if_neg hdis]

/-- With no environment URL, the resolved URL is the stored default-host
URL when nonempty, else the built-in default. -/
theorem resolvedURLOf_of_no_env (env : Env) (sc : StoredConfig)
    (h : trimSpace env.bitbucketURL = "") :
    resolvedURLOf env sc
      = if storedDefaultURL sc = "" then defaultBitbucketURL else storedDefaultURL sc := by
  rw [resolvedURLOf, storedDefaultURL]
  simp only [h, ne_eq, not_true_eq_false, if_false]

/-- C5: credential resolution obeys strict precedence.  A nonempty
environment URL wins outright; each auth field set by the environment
(trimmed-nonempty, via its alias chain) survives resolution untouched;
stored credentials fill a field only when the environment left it empty;
the stored default-host URL is used when the environment supplies none;
and the built-in default URL is used only when neither the environment
nor the stored default host produced one. -/
theorem credential_resolution_precedence
    (env : Env) (sc : StoredConfig) (kr : String → Option String) :
    (trimSpace env.bitbucketURL ≠ "" →
      (resolveAppConfig env sc kr).bitbucketURL = normalizeURL (trimSpace env.bitbucketURL))
    ∧ (trimSpace env.bitbucketToken ≠ "" →
      (resolveAppConfig env sc kr).bitbucketToken = trimSpace env.bitbucketToken)
    ∧ (envUsernameOf env ≠ "" →
      (resolveAppConfig env sc kr).bitbucketUsername = envUsernameOf env)
    ∧ (envPasswordOf env ≠ "" →
      (resolveAppConfig env sc kr).bitbucketPassword = envPasswordOf env)
    ∧ (∀ st, trimSpace env.bitbucketToken = "" → env.bbscDisableStoredConfig ≠ "1" →
        resolveStoredCredentials kr sc (resolvedURLOf env sc) = some st →
        st.bitbucketToken ≠ "" →
        (resolveAppConfig env sc kr).bitbucketToken = st.bitbucketToken)
    ∧ (∀ st, envUsernameOf env = "" → env.bbscDisableStoredConfig ≠ "1" →
        resolveStoredCredentials kr sc (resolvedURLOf env sc) = some st →
        st.bitbucketUsername ≠ "" →
        (resolveAppConfig env sc kr).bitbucketUsername = st.bitbucketUsername)
    ∧ (∀ st, envPasswordOf env = "" → env.bbscDisableStoredConfig ≠ "1" →
        resolveStoredCredentials kr sc (resolvedURLOf env sc) = some st →
        st.bitbucketPassword ≠ "" →
        (resolveAppConfig env sc kr).bitbucketPassword = st.bitbucketPassword)
    ∧ (trimSpace env.bitbucketURL = "" → storedDefaultURL sc ≠ "" →
        (resolveAppConfig env sc kr).bitbucketURL = storedDefaultURL sc)
    ∧ (trimSpace env.bitbucketURL = "" → storedDefaultURL sc = "" →
        (resolveAppConfig env sc kr).bitbucketURL = defaultBitbucketURL) := by
  refine ⟨?_, ?_, ?_, ?_, ?_, ?_, ?_, ?_, ?_⟩
  · intro h
    rw [resolveAppConfig_url, resolvedURLOf]
    simp only [if_pos h]
    rw [if_neg (normalizeURL_ne_empty _ (by rw [trimSpace_idem]; exact h))]
  · intro h
    have he : envOrDefault env.bitbucketToken "" = trimSpace env.bitbucketToken := by
      rw [envOrDefault, if_neg h]
    rw [resolveAppConfig_token]
    split_ifs with hdis
    · cases hres : resolveStoredCredentials kr sc (resolvedURLOf env sc) with
      | none => simp only [hres, he]
      | some st =>
        simp only [hres, he]
        rw [if_neg (fun hcon => h hcon.1)]
    · exact he
  · intro h
    rw [resolveAppConfig_username]
    split_ifs with hdis
    · cases hres : resolveStoredCredentials kr sc (resolvedURLOf env sc) with
      | none => simp only [hres]
      | some st =>
        simp only [hres]
        rw [if_neg (fun hcon => h hcon.1)]
    · rfl
  · intro h
    rw [resolveAppConfig_password]
    split_ifs with hdis
    · cases hres : resolveStoredCredentials kr sc (resolvedURLOf env sc) with
      | none => simp only [hres]
      | some st =>
        simp only [hres]
        rw [if_neg (fun hcon => h hcon.1)]
    · rfl
  · intro st h hdis hres hst
    have he : envOrDefault env.bitbucketToken "" = "" := by
      rw [envOrDefault, if_pos h]
    rw [resolveAppConfig_token, if_pos hdis]
    simp only [hres, he]
    simp [hst]
  · intro st h hdis hres hst
    rw [resolveAppConfig_username, if_pos hdis]
    simp only [hres]
    rw [if_pos ⟨h, hst⟩]
  · intro st h hdis hres hst
    rw [resolveAppConfig_password, if_pos hdis]
    simp only [hres]
    rw [if_pos ⟨h, hst⟩]
  · intro h hne
    rw [resolveAppConfig_url, resolvedURLOf_of_no_env env sc h, if_neg hne]
  · intro h hnil
    rw [resolveAppConfig_url, resolvedURLOf_of_no_env env sc h, if_pos hnil]

/-- Environment for the C5 witness with URL and auth set. -/
def c5EnvDirect : Env := ⟨"http://env-host:7990", "", "", "tok", "alice", "", "", "pw", "", ""⟩

/-- Environment for the C5 witness with no URL and no auth variables. -/
def c5EnvEmptyAuth : Env := ⟨"", "", "", "", "", "", "", "", "", ""⟩

/-- Stored configuration for the C5 witness: one default host with
insecure-fallback secrets. -/
def c5Stored : StoredConfig :=
  ⟨"http://stored:7990",
   [("http://stored:7990", ⟨"http://stored:7990", "bob", "basic"⟩)],
   [("http://stored:7990", ⟨"stok", "spw"⟩)]⟩

/-- A keyring whose reads always fail. -/
def noKeyring : String → Option String := fun _ => none

/-- The stored credentials `resolveStoredCredentials` yields for
`c5Stored` under `noKeyring`. -/
def c5StoredResolved : AppConfig := ⟨"http://stored:7990", "", "", "stok", "bob", "spw", ""⟩

/-- Witness for C5: with environment URL/token present they win; with no
environment auth, the stored token and the stored default-host URL are
used. -/
theorem credential_resolution_precedence_witness :
    (resolveAppConfig c5EnvDirect c5Stored noKeyring).bitbucketURL
        = normalizeURL (trimSpace c5EnvDirect.bitbucketURL)
    ∧ (resolveAppConfig c5EnvDirect c5Stored noKeyring).bitbucketToken
        = trimSpace c5EnvDirect.bitbucketToken
    ∧ (resolveAppConfig c5EnvEmptyAuth c5Stored noKeyring).bitbucketToken
        = c5StoredResolved.bitbucketToken
    ∧ (resolveAppConfig c5EnvEmptyAuth c5Stored noKeyring).bitbucketURL
        = storedDefaultURL c5Stored :=
  ⟨(credential_resolution_precedence c5EnvDirect c5Stored noKeyring).1 (by decide),
   (credential_resolution_precedence c5EnvDirect c5Stored noKeyring).2.1 (by decide),
   (credential_resolution_precedence c5EnvEmptyAuth c5Stored noKeyring).2.2.2.2.1
     c5StoredResolved (by decide) (by decide) (by decide) (by decide),
   (credential_resolution_precedence c5EnvEmptyAuth c5Stored noKeyring).2.2.2.2.2.2.2.1
     (by decide) (by decide)⟩

/-- Environment with stored-config lookup disabled and a bearer token
explicitly set. -/
def c6EnvDisabled : Env := ⟨"", "", "", "tok", "", "", "", "", "", "1"⟩

/-- Environment with only a bearer token set (lookup enabled). -/
def c6EnvToken : Env := ⟨"", "", "", "tok", "", "", "", "", "", ""⟩

/-- An empty stored configuration. -/
def emptyStored : StoredConfig := ⟨"", [], []⟩

/-- C6 counterexample: with `BBSC_DISABLE_STORED_CONFIG=1` and
`BITBUCKET_TOKEN` explicitly set, the auth source tag is `"env/default"`,
not `"env"` — the claim's "env whenever any auth env var is explicitly
set" fails when stored lookup is disabled, because the whole tagging
block is skipped. -/
theorem authSource_disabled_counterexample :
    c6EnvDisabled.bitbucketToken ≠ ""
    ∧ (resolveAppConfig c6EnvDisabled emptyStored noKeyring).authSource = "env/default" := by
  constructor
  · decide
  · decide

/-- C6 (amended): the auth source tag is `"env/default"` whenever stored
lookup is disabled (even if auth env vars are set); otherwise it is
`"env"` whenever any auth-related environment variable is explicitly set
(regardless of use); otherwise it is `"stored"` exactly when resolution
produced a usable credential set (nonempty token, or nonempty username
and password — necessarily contributed by the stored configuration), and
`"env/default"` in every remaining case. -/
theorem authSource_characterization (env : Env) (sc : StoredConfig)
    (kr : String → Option String) :
    (env.bbscDisableStoredConfig = "1" →
      (resolveAppConfig env sc kr).authSource = "env/default")
    ∧ (env.bbscDisableStoredConfig ≠ "1" → anyAuthEnvSet env = true →
      (resolveAppConfig env sc kr).authSource = "env")
    ∧ (env.bbscDisableStoredConfig ≠ "1" → anyAuthEnvSet env = false →
      ((resolveAppConfig env sc kr).authSource = "stored"
        ↔ (resolveAppConfig env sc kr).bitbucketToken ≠ ""
          ∨ ((resolveAppConfig env sc kr).bitbucketUsername ≠ ""
             ∧ (resolveAppConfig env sc kr).bitbucketPassword ≠ "")))
    ∧ (env.bbscDisableStoredConfig ≠ "1" → anyAuthEnvSet env = false →
      ((resolveAppConfig env sc kr).authSource = "stored"
        ∨ (resolveAppConfig env sc kr).authSource = "env/default")) := by
  refine ⟨?_, ?_, ?_, ?_⟩
  · intro h
    simp only [resolveAppConfig]
    rw [if_neg (by simp [h])]
  · intro hdis hany
    simp only [resolveAppConfig]
    rw [if_pos hdis]
    cases hres : resolveStoredCredentials kr sc (resolvedURLOf env sc) with
    | none => simp [hres, hany]
    | some st => simp [hres, hany]
  · intro hdis hany
    have hall := hany
    unfold anyAuthEnvSet at hall
    simp only [Bool.or_eq_false_iff, bne_eq_false_iff_eq] at hall
    obtain ⟨⟨⟨⟨⟨h1, h2⟩, h3⟩, h4⟩, h5⟩, h6⟩ := hall
    have hbt : envOrDefault env.bitbucketToken "" = "" := by
      rw [h1]
      rfl
    have hbu : envUsernameOf env = "" := by
      rw [envUsernameOf, h2, h3, h5]
      rfl
    have hbp : envPasswordOf env = "" := by
      rw [envPasswordOf, h4, h6]
      rfl
    simp only [resolveAppConfig]
    rw [if_pos hdis]
    simp only [hany, Bool.false_eq_true, if_false]
    cases hres : resolveStoredCredentials kr sc (resolvedURLOf env sc) with
    | none =>
      simp only [hres]
      simp [hbt, hbu, hbp]
    | some st =>
      simp only [hres]
      rw [applyStored_authSource, applyStored_token, applyStored_username,
        applyStored_password]
      split_ifs with hC
      · exact ⟨fun _ => hC, fun _ => rfl⟩
      · exact ⟨fun habs => absurd (show ("env/default" : String) = "stored" from habs)
          (by decide), fun hc => absurd hc hC⟩
  · intro hdis hany
    simp only [resolveAppConfig]
    rw [if_pos hdis]
    simp only [hany, Bool.false_eq_true, if_false]
    cases hres : resolveStoredCredentials kr sc (resolvedURLOf env sc) with
    | none =>
      simp only [hres]
      exact Or.inr (by trivial)
    | some st =>
      simp only [hres]
      rw [applyStored_authSource]
      split_ifs with hC
      · exact Or.inl (by trivial)
      · exact Or.inr (by trivial)

/-- Witness for the amended C6 at concrete inputs: disabled lookup tags
`env/default` even with a token set; an explicit token with lookup
enabled tags `env`; with no auth variables, the stored-credential case
satisfies the usable-credentials equivalence and the two-value range. -/
theorem authSource_characterization_witness :
    (resolveAppConfig c6EnvDisabled emptyStored noKeyring).authSource = "env/default"
    ∧ (resolveAppConfig c6EnvToken emptyStored noKeyring).authSource = "env"
    ∧ ((resolveAppConfig c5EnvEmptyAuth c5Stored noKeyring).authSource = "stored"
        ↔ (resolveAppConfig c5EnvEmptyAuth c5Stored noKeyring).bitbucketToken ≠ ""
          ∨ ((resolveAppConfig c5EnvEmptyAuth c5Stored noKeyring).bitbucketUsername ≠ ""
             ∧ (resolveAppConfig c5EnvEmptyAuth c5Stored noKeyring).bitbucketPassword ≠ ""))
    ∧ ((resolveAppConfig c5EnvEmptyAuth c5Stored noKeyring).authSource = "stored"
        ∨ (resolveAppConfig c5EnvEmptyAuth c5Stored noKeyring).authSource = "env/default") :=
  ⟨(authSource_characterization c6EnvDisabled emptyStored noKeyring).1 (by decide),
   (authSource_characterization c6EnvToken emptyStored noKeyring).2.1 (by decide) (by decide),
   (authSource_characterization c5EnvEmptyAuth c5Stored noKeyring).2.2.1 (by decide) (by decide),
   (authSource_characterization c5EnvEmptyAuth c5Stored noKeyring).2.2.2 (by decide) (by decide)⟩

/-- The typed requests the comment service issues through the generated
client (`GetComment[2]`, `CreateComment[2]`, `UpdateComment[2]`,
`DeleteComment[2]` — commit and pull-request variants). -/
inductive CommentReq where
  | getCommit (projectKey slug commitId commentId : String)
  | getPR (projectKey slug pullRequestId commentId : String)
  | createCommit (projectKey slug commitId : String) (body : RestComment)
  | createPR (projectKey slug pullRequestId : String) (body : RestComment)
  | updateCommit (projectKey slug commitId commentId : String) (body : RestComment)
  | updatePR (projectKey slug pullRequestId commentId : String) (body : RestComment)
  | deleteCommit (projectKey slug commitId commentId : String) (version : Option String)
  | deletePR (projectKey slug pullRequestId commentId : String) (version : Option String)
  deriving DecidableEq, Repr

/-- One generated-client response as the comment service sees it: HTTP
status, raw body, and the optionally decoded typed payload (the
`Applicationjson...200`/`201` field). -/
structure CommentResp where
  status : Nat
  body : String
  typed : Option RestComment
  deriving DecidableEq, Repr

/-- `comment.Service.Get`, returning the Go result together with the
ordered list of client requests issued (`client req = none` models a
transport error). -/
def commentGet (client : CommentReq → Option CommentResp) (target : Target)
    (commentID : String) : Except AppError RestComment × List CommentReq :=
  match validateTarget target with
  | some e => (.error e, [])
  | none =>
    let trimmedCommentID := trimSpace commentID
    if trimmedCommentID = "" then
      (.error (AppError.mk' .validation "comment id is required" none), [])
    else if trimSpace target.commitId ≠ "" then
      let req := CommentReq.getCommit target.repository.projectKey target.repository.slug
        target.commitId trimmedCommentID
      match client req with
      | none => (.error (AppError.mk' .transient "failed to get commit comment" none), [req])
      | some response =>
        match mapStatusError response.status response.body with
        | some e => (.error e, [req])
        | none =>
          match response.typed with
          | some comment => (.ok comment, [req])
          | none => (.ok ⟨none, none, none⟩, [req])
    else
      let req := CommentReq.getPR target.repository.projectKey target.repository.slug
        target.pullRequestId trimmedCommentID
      match client req with
      | none => (.error (AppError.mk' .transient "failed to get pull request comment" none), [req])
      | some response =>
        match mapStatusError response.status response.body with
        | some e => (.error e, [req])
        | none =>
          match response.typed with
          | some comment => (.ok comment, [req])
          | none => (.ok ⟨none, none, none⟩, [req])

/-- `comment.Service.Create` with its request log. -/
def commentCreate (client : CommentReq → Option CommentResp) (target : Target)
    (text : String) : Except AppError RestComment × List CommentReq :=
  match validateTarget target with
  | some e => (.error e, [])
  | none =>
    let trimmedText := trimSpace text
    if trimmedText = "" then
      (.error (AppError.mk' .validation "comment text is required" none), [])
    else
      let body : RestComment := ⟨none, some trimmedText, none⟩
      if trimSpace target.commitId ≠ "" then
        let req := CommentReq.createCommit target.repository.projectKey
          target.repository.slug target.commitId body
        match client req with
        | none => (.error (AppError.mk' .transient "failed to create commit comment" none), [req])
        | some response =>
          match mapStatusError response.status response.body with
          | some e => (.error e, [req])
          | none =>
            match response.typed with
            | some created => (.ok created, [req])
            | none => (.ok body, [req])
      else
        let req := CommentReq.createPR target.repository.projectKey
          target.repository.slug target.pullRequestId body
        match client req with
        | none => (.error (AppError.mk' .transient "failed to create pull request comment" none), [req])
        | some response =>
          match mapStatusError response.status response.body with
          | some e => (.error e, [req])
          | none =>
            match response.typed with
            | some created => (.ok created, [req])
            | none => (.ok body, [req])

/-- `comment.Service.Update` with its request log: resolves the version by
a preliminary `Get` when the caller supplies none, then issues the write
with the resolved version in the body. -/
def commentUpdate (client : CommentReq → Option CommentResp) (target : Target)
    (commentID text : String) (version : Option Int) :
    Except AppError RestComment × List CommentReq :=
  match validateTarget target with
  | some e => (.error e, [])
  | none =>
    let trimmedCommentID := trimSpace commentID
    if trimmedCommentID = "" then
      (.error (AppError.mk' .validation "comment id is required" none), [])
    else
      let trimmedText := trimSpace text
      if trimmedText = "" then
        (.error (AppError.mk' .validation "comment text is required" none), [])
      else
        let resolved : Except AppError (Option Int) × List CommentReq :=
          match version with
          | some v => (.ok (some v), [])
          | none =>
            match commentGet client target trimmedCommentID with
            | (.error e, log) => (.error e, log)
            | (.ok current, log) => (.ok current.version, log)
        match resolved with
        | (.error e, log) => (.error e, log)
        | (.ok resolvedVersion, log) =>
          let body : RestComment := ⟨none, some trimmedText, resolvedVersion⟩
          if trimSpace target.commitId ≠ "" then
            let req := CommentReq.updateCommit target.repository.projectKey
              target.repository.slug target.commitId trimmedCommentID body
            match client req with
            | none =>
              (.error (AppError.mk' .transient "failed to update commit comment" none), log ++ [req])
            | some response =>
              match mapStatusError response.status response.body with
              | some e => (.error e, log ++ [req])
              | none =>
                match response.typed with
                | some updated => (.ok updated, log ++ [req])
                | none => (.ok body, log ++ [req])
          else
            let req := CommentReq.updatePR target.repository.projectKey
              target.repository.slug target.pullRequestId trimmedCommentID body
            match client req with
            | none =>
              (.error (AppError.mk' .transient "failed to update pull request comment" none), log ++ [req])
            | some response =>
              match mapStatusError response.status response.body with
              | some e => (.error e, log ++ [req])
              | none =>
                match response.typed with
                | some updated => (.ok updated, log ++ [req])
                | none => (.ok body, log ++ [req])

/-- `comment.Service.Delete` with its request log: resolves the version by
a preliminary `Get` when the caller supplies none, converts it to the
query-string form with `strconv.Itoa`, issues the delete, and returns the
resolved version on success. -/
def commentDelete (client : CommentReq → Option CommentResp) (target : Target)
    (commentID : String) (version : Option Int) :
    Except AppError (Option Int) × List CommentReq :=
  match validateTarget target with
  | some e => (.error e, [])
  | none =>
    let trimmedCommentID := trimSpace commentID
    if trimmedCommentID = "" then
      (.error (AppError.mk' .validation "comment id is required" none), [])
    else
      let resolved : Except AppError (Option Int) × List CommentReq :=
        match version with
        | some v => (.ok (some v), [])
        | none =>
          match commentGet client target trimmedCommentID with
          | (.error e, log) => (.error e, log)
          | (.ok current, log) => (.ok current.version, log)
      match resolved with
      | (.error e, log) => (.error e, log)
      | (.ok resolvedVersion, log) =>
        let versionParam := resolvedVersion.map (fun v => toString v)
        if trimSpace target.commitId ≠ "" then
          let req := CommentReq.deleteCommit target.repository.projectKey
            target.repository.slug target.commitId trimmedCommentID versionParam
          match client req with
          | none =>
            (.error (AppError.mk' .transient "failed to delete commit comment" none), log ++ [req])
          | some response =>
            match mapStatusError response.status response.body with
            | some e => (.error e, log ++ [req])
            | none => (.ok resolvedVersion, log ++ [req])
        else
          let req := CommentReq.deletePR target.repository.projectKey
            target.repository.slug target.pullRequestId trimmedCommentID versionParam
          match client req with
          | none =>
            (.error (AppError.mk' .transient "failed to delete pull request comment" none), log ++ [req])
          | some response =>
            match mapStatusError response.status response.body with
            | some e => (.error e, log ++ [req])
            | none => (.ok resolvedVersion, log ++ [req])

/-- The GET request the service issues for the target's branch. -/
def getReqOf (target : Target) (commentId : String) : CommentReq :=
  if trimSpace target.commitId ≠ "" then
    .getCommit target.repository.projectKey target.repository.slug target.commitId commentId
  else
    .getPR target.repository.projectKey target.repository.slug target.pullRequestId commentId

/-- The DELETE request the service issues for the target's branch. -/
def deleteReqOf (target : Target) (commentId : String) (version : Option String) : CommentReq :=
  if trimSpace target.commitId ≠ "" then
    .deleteCommit target.repository.projectKey target.repository.slug target.commitId
      commentId version
  else
    .deletePR target.repository.projectKey target.repository.slug target.pullRequestId
      commentId version

/-- The PUT request the service issues for the target's branch. -/
def updateReqOf (target : Target) (commentId : String) (body : RestComment) : CommentReq :=
  if trimSpace target.commitId ≠ "" then
    .updateCommit target.repository.projectKey target.repository.slug target.commitId
      commentId body
  else
    .updatePR target.repository.projectKey target.repository.slug target.pullRequestId
      commentId body

/-- The POST request the service issues for the target's branch. -/
def createReqOf (target : Target) (body : RestComment) : CommentReq :=
  if trimSpace target.commitId ≠ "" then
    .createCommit target.repository.projectKey target.repository.slug target.commitId body
  else
    .createPR target.repository.projectKey target.repository.slug target.pullRequestId body

/-- Normalized shape of `commentGet` for a valid target and an
already-trimmed nonempty id: one GET request, with the result decided by
that response. -/
theorem commentGet_eq (client : CommentReq → Option CommentResp) (target : Target)
    (commentID : String) (hvalid : validateTarget target = none)
    (hid : trimSpace commentID = commentID) (hidne : commentID ≠ "") :
    commentGet client target commentID
      = (match client (getReqOf target commentID) with
         | none =>
           (.error (AppError.mk' .transient
             (if trimSpace target.commitId ≠ "" then "failed to get commit comment"
              else "failed to get pull request comment") none), [getReqOf target commentID])
         | some response =>
           match mapStatusError response.status response.body with
           | some e => (.error e, [getReqOf target commentID])
           | none =>
             match response.typed with
             | some comment => (.ok comment, [getReqOf target commentID])
             | none => (.ok ⟨none, none, none⟩, [getReqOf target commentID])) := by
  rw [commentGet, hvalid]
  simp only [hid, if_neg hidne]
  by_cases hb : trimSpace target.commitId ≠ ""
  · simp only [if_pos hb, getReqOf]
  · simp only [if_neg hb, getReqOf]

set_option maxHeartbeats 1600000 in
/-- C7: for a valid target and trimmed nonempty comment id — (A) delete
without an explicit version performs exactly one GET, reads version `v`
from it, issues exactly one DELETE carrying `version=v` (stringified),
and returns the resolved version `v`; (B) delete with an explicit version
issues no preliminary GET — its request trace is the single DELETE
carrying that version; (C) if the preliminary GET fails, delete fails
with that error and no write request is issued; (D)–(F) the same for
update: one GET then one PUT whose body carries the resolved version,
no GET when the version is explicit, and a failed GET aborts with no
write. -/
theorem comment_write_version_resolution
    (client : CommentReq → Option CommentResp) (target : Target)
    (commentID text : String)
    (hvalid : validateTarget target = none)
    (hid : trimSpace commentID = commentID) (hidne : commentID ≠ "") :
    (∀ gresp current v dresp,
      client (getReqOf target commentID) = some gresp →
      mapStatusError gresp.status gresp.body = none →
      gresp.typed = some current →
      current.version = some v →
      client (deleteReqOf target commentID (some (toString v))) = some dresp →
      mapStatusError dresp.status dresp.body = none →
      commentDelete client target commentID none
        = (.ok (some v), [getReqOf target commentID,
            deleteReqOf target commentID (some (toString v))]))
    ∧ (∀ w, (commentDelete client target commentID (some w)).2
        = [deleteReqOf target commentID (some (toString w))])
    ∧ (∀ e, (commentGet client target commentID).1 = .error e →
      commentDelete client target commentID none
        = (.error e, (commentGet client target commentID).2))
    ∧ (∀ gresp current v uresp,
      trimSpace text = text → text ≠ "" →
      client (getReqOf target commentID) = some gresp →
      mapStatusError gresp.status gresp.body = none →
      gresp.typed = some current →
      current.version = some v →
      client (updateReqOf target commentID ⟨none, some text, some v⟩) = some uresp →
      mapStatusError uresp.status uresp.body = none →
      (commentUpdate client target commentID text none).2
        = [getReqOf target commentID, updateReqOf target commentID ⟨none, some text, some v⟩])
    ∧ (∀ w, trimSpace text = text → text ≠ "" →
      (commentUpdate client target commentID text (some w)).2
        = [updateReqOf target commentID ⟨none, some text, some w⟩])
    ∧ (∀ e, trimSpace text = text → text ≠ "" →
      (commentGet client target commentID).1 = .error e →
      commentUpdate client target commentID text none
        = (.error e, (commentGet client target commentID).2)) := by
  refine ⟨?_, ?_, ?_, ?_, ?_, ?_⟩
  · intro gresp current v dresp hget hgok hgtyped hv hdel hdok
    rw [commentDelete, hvalid]
    simp only [hid, if_neg hidne]
    rw [commentGet_eq client target commentID hvalid hid hidne]
    simp only [hget, hgok, hgtyped, hv]
    by_cases hb : trimSpace target.commitId ≠ ""
    · rw [deleteReqOf, if_pos hb] at hdel
      simp only [if_pos hb, Option.map_some']
      simp [hdel, hdok, getReqOf, deleteReqOf, hb]
    · rw [deleteReqOf, if_neg hb] at hdel
      simp only [if_neg hb, Option.map_some']
      simp [hdel, hdok, getReqOf, deleteReqOf, hb]
  · intro w
    rw [commentDelete, hvalid]
    simp only [hid, if_neg hidne]
    by_cases hb : trimSpace target.commitId ≠ ""
    · simp only [if_pos hb, Option.map_some', deleteReqOf]
      split
      · simp [hb]
      · split <;> simp [hb]
    · simp only [if_neg hb, Option.map_some', deleteReqOf]
      split
      · simp [hb]
      · split <;> simp [hb]
  · intro e herr
    rw [commentDelete, hvalid]
    simp only [hid, if_neg hidne]
    rcases hcg : commentGet client target commentID with ⟨res, log⟩
    rw [hcg] at herr
    simp only [hcg]
    cases res with
    | error e' =>
      simp only at herr
      cases herr
      rfl
    | ok cur => simp at herr
  · intro gresp current v uresp htext htextne hget hgok hgtyped hv hupd huok
    rw [commentUpdate, hvalid]
    simp only [hid, if_neg hidne, htext, if_neg htextne]
    rw [commentGet_eq client target commentID hvalid hid hidne]
    simp only [hget, hgok, hgtyped, hv]
    by_cases hb : trimSpace target.commitId ≠ ""
    · rw [updateReqOf, if_pos hb] at hupd
      simp only [if_pos hb]
      simp only [hupd, huok, getReqOf, updateReqOf, hb, if_pos hb]
      split <;> simp
    · rw [updateReqOf, if_neg hb] at hupd
      simp only [if_neg hb]
      simp only [hupd, huok, getReqOf, updateReqOf, hb, if_neg hb]
      split <;> simp
  · intro w htext htextne
    rw [commentUpdate, hvalid]
    simp only [hid, if_neg hidne, htext, if_neg htextne]
    by_cases hb : trimSpace target.commitId ≠ ""
    · simp only [if_pos hb, updateReqOf]
      split
      · simp [hb]
      · split
        · simp [hb]
        · split <;> simp [hb]
    · simp only [if_neg hb, updateReqOf]
      split
      · simp [hb]
      · split
        · simp [hb]
        · split <;> simp [hb]
  · intro e htext htextne herr
    rw [commentUpdate, hvalid]
    simp only [hid, if_neg hidne, htext, if_neg htextne]
    rcases hcg : commentGet client target commentID with ⟨res, log⟩
    rw [hcg] at herr
    simp only [hcg]
    cases res with
    | error e' =>
      simp only at herr
      cases herr
      rfl
    | ok cur => simp at herr

/-- Concrete client for the C7 witness: comment id 300 at server version
4; delete requires `version=4`. -/
def c7Client : CommentReq → Option CommentResp := fun req =>
  match req with
  | .getCommit "PRJ" "demo" "abc" "300" => some ⟨200, "", some ⟨some 300, some "seed", some 4⟩⟩
  | .deleteCommit "PRJ" "demo" "abc" "300" (some "4") => some ⟨204, "", none⟩
  | .updateCommit "PRJ" "demo" "abc" "300" _ => some ⟨200, "", some ⟨some 300, some "changed", some 5⟩⟩
  | _ => none

/-- Witness for C7 at the specification's scenario (id 300, server
version 4): delete without a version performs exactly one GET then one
DELETE carrying `version=4` and returns 4; delete with an explicit
version issues only the DELETE. -/
theorem comment_write_version_resolution_witness :
    commentDelete c7Client commitTarget "300" none
      = (.ok (some 4), [getReqOf commitTarget "300",
          deleteReqOf commitTarget "300" (some (toString (4 : Int)))])
    ∧ (commentDelete c7Client commitTarget "300" (some 9)).2
      = [deleteReqOf commitTarget "300" (some (toString (9 : Int)))] :=
  have h := comment_write_version_resolution c7Client commitTarget "300" "changed"
    (by decide) (by decide) (by decide)
  ⟨h.1 ⟨200, "", some ⟨some 300, some "seed", some 4⟩⟩ ⟨some 300, some "seed", some 4⟩ 4
      ⟨204, "", none⟩ (by decide) (by decide) rfl rfl (by decide) (by decide),
   h.2.1 9⟩

/-- C10: on a 2xx response whose decoded typed payload is absent, the
comment operations still succeed with no error — Get returns the
zero-value comment, Create returns the client-submitted body (trimmed
text only), and Update returns the client-submitted body (trimmed text
plus the resolved version) — so a successful create can indeed carry no
id. -/
theorem comment_ops_tolerate_missing_payload
    (client : CommentReq → Option CommentResp) (target : Target)
    (commentID text : String) (hvalid : validateTarget target = none) :
    (∀ gresp,
      trimSpace commentID = commentID → commentID ≠ "" →
      client (getReqOf target commentID) = some gresp →
      mapStatusError gresp.status gresp.body = none →
      gresp.typed = none →
      commentGet client target commentID
        = (.ok ⟨none, none, none⟩, [getReqOf target commentID]))
    ∧ (∀ cresp,
      trimSpace text = text → text ≠ "" →
      client (createReqOf target ⟨none, some text, none⟩) = some cresp →
      mapStatusError cresp.status cresp.body = none →
      cresp.typed = none →
      commentCreate client target text
        = (.ok ⟨none, some text, none⟩, [createReqOf target ⟨none, some text, none⟩]))
    ∧ (∀ w uresp,
      trimSpace commentID = commentID → commentID ≠ "" →
      trimSpace text = text → text ≠ "" →
      client (updateReqOf target commentID ⟨none, some text, some w⟩) = some uresp →
      mapStatusError uresp.status uresp.body = none →
      uresp.typed = none →
      commentUpdate client target commentID text (some w)
        = (.ok ⟨none, some text, some w⟩,
            [updateReqOf target commentID ⟨none, some text, some w⟩])) := by
  refine ⟨?_, ?_, ?_⟩
  · intro gresp hid hidne hget hgok hgtyped
    rw [commentGet_eq client target commentID hvalid hid hidne]
    simp only [hget, hgok, hgtyped]
  · intro cresp htext htextne hcr hcok hctyped
    rw [commentCreate, hvalid]
    simp only [htext, if_neg htextne]
    by_cases hb : trimSpace target.commitId ≠ ""
    · rw [createReqOf, if_pos hb] at hcr
      simp only [if_pos hb, hcr, hcok, hctyped, createReqOf]
    · rw [createReqOf, if_neg hb] at hcr
      simp only [if_neg hb, hcr, hcok, hctyped, createReqOf]
  · intro w uresp hid hidne htext htextne hupd huok hutyped
    rw [commentUpdate, hvalid]
    simp only [hid, if_neg hidne, htext, if_neg htextne]
    by_cases hb : trimSpace target.commitId ≠ ""
    · rw [updateReqOf, if_pos hb] at hupd
      simp only [if_pos hb, hupd, huok, hutyped, updateReqOf]
      simp [hb]
    · rw [updateReqOf, if_neg hb] at hupd
      simp only [if_neg hb, hupd, huok, hutyped, updateReqOf]
      simp [hb]

/-- Concrete client answering every comment request with 2xx and no
typed payload. -/
def emptyPayloadClient : CommentReq → Option CommentResp :=
  fun _ => some ⟨200, "", none⟩

/-- Witness for C10: against a server that returns 2xx with no decodable
payload, Get yields the zero-value comment, Create echoes the submitted
text, and Update echoes the submitted text and explicit version. -/
theorem comment_ops_tolerate_missing_payload_witness :
    commentGet emptyPayloadClient commitTarget "300"
      = (.ok ⟨none, none, none⟩, [getReqOf commitTarget "300"])
    ∧ commentCreate emptyPayloadClient commitTarget "hello"
      = (.ok ⟨none, some "hello", none⟩, [createReqOf commitTarget ⟨none, some "hello", none⟩])
    ∧ commentUpdate emptyPayloadClient commitTarget "300" "hello" (some 7)
      = (.ok ⟨none, some "hello", some 7⟩,
          [updateReqOf commitTarget "300" ⟨none, some "hello", some 7⟩]) :=
  have h := comment_ops_tolerate_missing_payload emptyPayloadClient commitTarget
    "300" "hello" (by decide)
  ⟨h.1 ⟨200, "", none⟩ (by decide) (by decide) rfl rfl rfl,
   h.2.1 ⟨200, "", none⟩ (by decide) (by decide) rfl rfl rfl,
   h.2.2 7 ⟨200, "", none⟩ (by decide) (by decide) (by decide) (by decide) rfl rfl rfl⟩

/-- Outcome of one attempt as `GetJSON` observes it: `client.http.Do`
fails (transport error), or a response arrives with its status, body,
whether reading the body succeeded, and whether JSON-decoding the 2xx
body into the output succeeds. -/
inductive NetOutcome where
  | transportErr (msg : String)
  | response (status : Nat) (body : String) (readOk : Bool) (decodeOk : Bool)
  deriving DecidableEq, Repr

/-- Result of a `GetJSON` run: the returned error (`none` = success),
the number of attempts made, and the backoff sleeps (milliseconds) in
order. -/
structure RunResult where
  result : Option AppError
  attempts : Nat
  sleeps : List Nat
  deriving DecidableEq, Repr

/-- The attempt loop of `httpclient.Client.GetJSON` (`for attempt := 0;
attempt <= retries; attempt++`): transport errors and 429/5xx responses
retry with `(attempt+1)*250`ms sleeps while `attempt < retries`, body
read failures and decode failures return immediately, other non-2xx
return their classified error immediately.  `fuel` is the number of
iterations left (`retries+1-attempt`); the fuel-exhausted case mirrors
the dead fall-through after the Go loop. -/
def getJSONAttempts (net : Nat → NetOutcome) (retries : Nat) :
    Nat → Nat → Option AppError → List Nat → RunResult
  | 0, attempt, lastErr, sleeps =>
    match lastErr with
    | some e => ⟨some e, attempt, sleeps⟩
    | none => ⟨some (AppError.mk' .transient "request failed after retries" none), attempt, sleeps⟩
  | fuel + 1, attempt, _lastErr, sleeps =>
    match net attempt with
    | .transportErr m =>
      let err := AppError.mk' .transient "request failed" (some m)
      if attempt < retries then
        getJSONAttempts net retries fuel (attempt + 1) (some err) (sleeps ++ [(attempt + 1) * 250])
      else ⟨some err, attempt + 1, sleeps⟩
    | .response status body readOk decodeOk =>
      if readOk = false then
        ⟨some (AppError.mk' .transient "failed to read response" none), attempt + 1, sleeps⟩
      else if 200 ≤ status ∧ status < 300 then
        if decodeOk then ⟨none, attempt + 1, sleeps⟩
        else ⟨some (AppError.mk' .permanent "failed to decode API response" none), attempt + 1, sleeps⟩
      else
        let mappedErr := httpclientMapStatusError status body
        if status = 429 ∨ 500 ≤ status then
          if attempt < retries then
            getJSONAttempts net retries fuel (attempt + 1) (some mappedErr)
              (sleeps ++ [(attempt + 1) * 250])
          else ⟨some mappedErr, attempt + 1, sleeps⟩
        else ⟨some mappedErr, attempt + 1, sleeps⟩

/-- The fixed retry budget `NewFromConfig` configures (`retries: 2`). -/
def clientRetries : Nat := 2

/-- `httpclient.Client.GetJSON` for a client built by `NewFromConfig`. -/
def GetJSON (net : Nat → NetOutcome) : RunResult :=
  getJSONAttempts net clientRetries (clientRetries + 1) 0 none []

/-- The outcomes `GetJSON` retries: transport-level `Do` failures and
fully-read 429/5xx responses. -/
def RetryableOutcome : NetOutcome → Prop
  | .transportErr _ => True
  | .response status _ readOk _ =>
    readOk = true ∧ ¬(200 ≤ status ∧ status < 300) ∧ (status = 429 ∨ 500 ≤ status)

/-- The classified error `GetJSON` associates with a failed attempt. -/
def classifyOutcome : NetOutcome → AppError
  | .transportErr m => AppError.mk' .transient "request failed" (some m)
  | .response status body _ _ => httpclientMapStatusError status body

/-- `getJSONAttempts` makes at most `fuel` further attempts. -/
theorem getJSONAttempts_attempts_le (net : Nat → NetOutcome) (retries : Nat) :
    ∀ (fuel attempt : Nat) (lastErr : Option AppError) (sleeps : List Nat),
      (getJSONAttempts net retries fuel attempt lastErr sleeps).attempts ≤ attempt + fuel := by
  intro fuel
  induction fuel with
  | zero =>
    intro attempt lastErr sleeps
    cases lastErr <;> simp [getJSONAttempts]
  | succ fuel ih =>
    intro attempt lastErr sleeps
    rw [getJSONAttempts]
    cases ho : net attempt with
    | transportErr m =>
      by_cases hlt : attempt < retries
      · simp only [if_pos hlt]
        have := ih (attempt + 1) (some (AppError.mk' .transient "request failed" (some m)))
          (sleeps ++ [(attempt + 1) * 250])
        omega
      · simp only [if_neg hlt]
        omega
    | response status body readOk decodeOk =>
      by_cases hread : readOk = false
      · simp only [if_pos hread]
        omega
      · simp only [if_neg hread]
        by_cases h2xx : 200 ≤ status ∧ status < 300
        · simp only [if_pos h2xx]
          by_cases hdec : decodeOk = true
          · simp only [if_pos hdec]
            omega
          · simp only [if_neg hdec]
            omega
        · simp only [if_neg h2xx]
          by_cases hretry : status = 429 ∨ 500 ≤ status
          · simp only [if_pos hretry]
            by_cases hlt : attempt < retries
            · simp only [if_pos hlt]
              have := ih (attempt + 1) (some (httpclientMapStatusError status body))
                (sleeps ++ [(attempt + 1) * 250])
              omega
            · simp only [if_neg hlt]
              omega
          · simp only [if_neg hretry]
            omega

/-- A retryable outcome with retries left: sleep `(attempt+1)*250`ms and
continue with the classified error as `lastErr`. -/
theorem getJSONAttempts_step_retryable (net : Nat → NetOutcome) (retries fuel attempt : Nat)
    (lastErr : Option AppError) (sleeps : List Nat)
    (h : RetryableOutcome (net attempt)) (hlt : attempt < retries) :
    getJSONAttempts net retries (fuel + 1) attempt lastErr sleeps
      = getJSONAttempts net retries fuel (attempt + 1)
          (some (classifyOutcome (net attempt))) (sleeps ++ [(attempt + 1) * 250]) := by
  rw [getJSONAttempts]
  cases ho : net attempt with
  | transportErr m =>
    simp only [if_pos hlt, classifyOutcome, ho]
  | response status body readOk decodeOk =>
    rw [ho] at h
    obtain ⟨hread, h2xx, hretry⟩ := h
    simp only [hread, if_neg (by decide : ¬(true = false)), if_neg h2xx, if_pos hretry,
      if_pos hlt, classifyOutcome, ho]

/-- A retryable outcome on the last allowed attempt: surface its
classified error. -/
theorem getJSONAttempts_step_last (net : Nat → NetOutcome) (retries fuel attempt : Nat)
    (lastErr : Option AppError) (sleeps : List Nat)
    (h : RetryableOutcome (net attempt)) (hge : ¬ attempt < retries) :
    getJSONAttempts net retries (fuel + 1) attempt lastErr sleeps
      = ⟨some (classifyOutcome (net attempt)), attempt + 1, sleeps⟩ := by
  rw [getJSONAttempts]
  cases ho : net attempt with
  | transportErr m =>
    simp only [if_neg hge, classifyOutcome, ho]
  | response status body readOk decodeOk =>
    rw [ho] at h
    obtain ⟨hread, h2xx, hretry⟩ := h
    simp only [hread, if_neg (by decide : ¬(true = false)), if_neg h2xx, if_pos hretry,
      if_neg hge, classifyOutcome, ho]

/-- C8: with the configured budget of 2 retries (3 attempts), `GetJSON`
retries transport failures and 429/5xx responses with backoff sleeps of
250ms then 500ms and finally surfaces the last attempt's classified
error; any other non-2xx response fails immediately after one attempt
with its classified error and no sleep; a decoded 2xx succeeds after one
attempt; and no run ever makes more than 3 attempts. -/
theorem getJSON_retry_policy (net : Nat → NetOutcome) :
    (RetryableOutcome (net 0) → RetryableOutcome (net 1) → RetryableOutcome (net 2) →
      GetJSON net = ⟨some (classifyOutcome (net 2)), 3, [250, 500]⟩)
    ∧ (∀ status body decodeOk, net 0 = .response status body true decodeOk →
      ¬(200 ≤ status ∧ status < 300) → status ≠ 429 → status < 500 →
      GetJSON net = ⟨some (httpclientMapStatusError status body), 1, []⟩)
    ∧ (∀ status body, net 0 = .response status body true true →
      200 ≤ status → status < 300 →
      GetJSON net = ⟨none, 1, []⟩)
    ∧ (GetJSON net).attempts ≤ 3 := by
  refine ⟨?_, ?_, ?_, ?_⟩
  · intro h0 h1 h2
    rw [GetJSON]
    rw [show clientRetries + 1 = 2 + 1 from rfl]
    rw [getJSONAttempts_step_retryable net clientRetries 2 0 none [] h0 (by decide)]
    rw [show (2 : Nat) = 1 + 1 from rfl]
    rw [getJSONAttempts_step_retryable net clientRetries 1 1 _ _ h1 (by decide)]
    rw [show (1 : Nat) = 0 + 1 from rfl]
    rw [getJSONAttempts_step_last net clientRetries 0 2 _ _ h2 (by decide)]
    rfl
  · intro status body decodeOk h0 h2xx h429 h5
    rw [GetJSON, show clientRetries + 1 = 2 + 1 from rfl, getJSONAttempts]
    simp only [h0]
    rw [if_neg (by decide : ¬(true = false)), if_neg h2xx,
      if_neg (by omega : ¬(status = 429 ∨ 500 ≤ status))]
  · intro status body h0 hlow hhigh
    rw [GetJSON, show clientRetries + 1 = 2 + 1 from rfl, getJSONAttempts]
    simp only [h0]
    rw [if_neg (by decide : ¬(true = false)), if_pos ⟨hlow, hhigh⟩]
    simp
  · exact getJSONAttempts_attempts_le net clientRetries (clientRetries + 1) 0 none []

/-- A network that always fails at transport level. -/
def alwaysDownNet : Nat → NetOutcome := fun _ => .transportErr "connection refused"

/-- A network whose first answer is a clean 404. -/
def notFoundNet : Nat → NetOutcome := fun _ => .response 404 "missing" true false

/-- Witness for C8: a permanently-down transport is retried twice (3
attempts, sleeps 250ms and 500ms) before the transient error surfaces,
while a 404 fails on the first attempt with the not-found classification
and no sleeps. -/
theorem getJSON_retry_policy_witness :
    GetJSON alwaysDownNet
      = ⟨some (classifyOutcome (alwaysDownNet 2)), 3, [250, 500]⟩
    ∧ GetJSON notFoundNet
      = ⟨some (httpclientMapStatusError 404 "missing"), 1, []⟩ :=
  ⟨(getJSON_retry_policy alwaysDownNet).1 trivial trivial trivial,
   (getJSON_retry_policy notFoundNet).2.1 404 "missing" false rfl (by omega)
     (by omega) (by omega)⟩

/-- Model of Go `strings.Split(s, "\n")`. -/
def splitLinesAux : List Char → List Char → List String
  | [], current => [String.mk current.reverse]
  | c :: rest, current =>
    if c = '\n' then String.mk current.reverse :: splitLinesAux rest []
    else splitLinesAux rest (c :: current)

/-- The lines of a diff body (`strings.Split(diffText, "\n")`). -/
def splitLines (s : String) : List String := splitLinesAux s.data []

/-- Model of Go `strings.Fields`: whitespace-separated runs, no empties. -/
def fieldsAux : List Char → List Char → List String
  | [], current => if current.isEmpty then [] else [String.mk current.reverse]
  | c :: rest, current =>
    if c.isWhitespace then
      if current.isEmpty then fieldsAux rest []
      else String.mk current.reverse :: fieldsAux rest []
    else fieldsAux rest (c :: current)

/-- `strings.Fields`. -/
def fields (s : String) : List String := fieldsAux s.data []

/-- Model of Go `strings.HasPrefix`. -/
def strHasPre (s pre : String) : Bool := pre.data.isPrefixOf s.data

/-- Model of Go `strings.TrimPrefix`. -/
def strTrimPre (s pre : String) : String :=
  if pre.data.isPrefixOf s.data then String.mk (s.data.drop pre.data.length) else s

/-- The candidate path of one `diff --git` line (the two candidate
assignments of `extractNamesFromUnifiedDiff`): the `b/` side unless it is
`/dev/null` or empty, then the `a/` side. -/
def lineCandidate (line : String) : String :=
  let candidate := strTrimPre ((fields line).getD 3 "") "b/"
  if candidate = "/dev/null" ∨ candidate = "" then strTrimPre ((fields line).getD 2 "") "a/"
  else candidate

/-- The line loop of `diff.extractNamesFromUnifiedDiff`: skip non-marker
lines and lines with fewer than 4 fields, skip empty//dev/null
candidates, and append each candidate not yet in `seen`. -/
def extractLoop : List String → List String → List String → List String
  | [], _seen, names => names
  | line :: rest, seen, names =>
    if strHasPre line "diff --git " = false then extractLoop rest seen names
    else if (fields line).length < 4 then extractLoop rest seen names
    else
      let candidate := lineCandidate line
      if candidate = "" ∨ candidate = "/dev/null" then extractLoop rest seen names
      else if candidate ∈ seen then extractLoop rest seen names
      else extractLoop rest (candidate :: seen) (names ++ [candidate])

/-- `diff.extractNamesFromUnifiedDiff`. -/
def extractNamesFromUnifiedDiff (diffText : String) : List String :=
  extractLoop (splitLines diffText) [] []

/-- The claim's per-line extraction: the path of a well-formed
`diff --git a/<path> b/<path>` marker line, preferring the `b/` side
unless it is `/dev/null` (deleted file), `none` otherwise. -/
def markerPath (line : String) : Option String :=
  if strHasPre line "diff --git " = false then none
  else if (fields line).length < 4 then none
  else
    let candidate := lineCandidate line
    if candidate = "" ∨ candidate = "/dev/null" then none
    else some candidate

/-- First-seen-order deduplication relative to a seen set. -/
def dedupSeen (seen : List String) : List String → List String
  | [] => []
  | c :: rest =>
    if c ∈ seen then dedupSeen seen rest else c :: dedupSeen (c :: seen) rest

/-- The extraction loop is first-seen deduplication of the per-line
marker paths, appended after the accumulated names. -/
theorem extractLoop_eq_dedup (lines : List String) :
    ∀ (seen names : List String),
      extractLoop lines seen names
        = names ++ dedupSeen seen (lines.filterMap markerPath) := by
  induction lines with
  | nil =>
    intro seen names
    simp [extractLoop, dedupSeen]
  | cons line rest ih =>
    intro seen names
    by_cases hpre : strHasPre line "diff --git " = false
    · simp [extractLoop, markerPath, hpre, ih]
    · by_cases hlen : (fields line).length < 4
      · simp [extractLoop, markerPath, hpre, hlen, ih]
      · by_cases hskip : lineCandidate line = "" ∨ lineCandidate line = "/dev/null"
        · simp [extractLoop, markerPath, hpre, hlen, hskip, ih]
        · by_cases hseen : lineCandidate line ∈ seen
          · simp [extractLoop, markerPath, hpre, hlen, hskip, hseen, dedupSeen, ih]
          · simp [extractLoop, markerPath, hpre, hlen, hskip, hseen, dedupSeen, ih]

/-- C9: name-only extraction returns exactly the per-line marker paths
(lines starting with `diff --git `, `b/` side preferred unless
`/dev/null`, then `a/` side), deduplicated in first-seen order; on the
specification's example input the result is `["a.txt", "dir/b.go"]`. -/
theorem extractNames_matches_spec (diffText : String) :
    extractNamesFromUnifiedDiff diffText
      = dedupSeen [] ((splitLines diffText).filterMap markerPath)
    ∧ extractNamesFromUnifiedDiff
        ("diff --git a/a.txt b/a.txt\n+hi\ndiff --git a/dir/b.go b/dir/b.go\n+more\ndiff --git a/a.txt b/a.txt")
      = ["a.txt", "dir/b.go"] := by
  constructor
  · rw [extractNamesFromUnifiedDiff, extractLoop_eq_dedup]
    rfl
  · decide
